import Mathlib

/-!
Verification of the move-decision engine of the cycles bot
(`SmartestBotClient`): move legality, flood-fill area estimation,
minimax search with alpha-beta pruning, and the decision driver.

The engine code is translated from the C++ source.  The surrounding
game API (direction vectors, grid accessors) is not part of the
engine's translation unit; those helpers are modelled from the
specification and carry a doc comment saying so.
-/

namespace Cycles

/-- Modelled from the spec: a position is an integer coordinate pair
(the source's `sf::Vector2i`). -/
structure Pos where
  x : Int
  y : Int
deriving DecidableEq, Repr

instance : Add Pos := ⟨fun a b => ⟨a.x + b.x, a.y + b.y⟩⟩

theorem Pos.add_def (a b : Pos) : a + b = ⟨a.x + b.x, a.y + b.y⟩ := rfl

/-- Modelled from the spec: one of the four movement directions. -/
inductive Direction where
  | up
  | down
  | left
  | right
deriving DecidableEq, Repr

/-- Modelled from the spec: each direction maps to a unit displacement
vector (`getDirectionVector` of the game API, which is missing from the
sources). -/
def getDirectionVector : Direction → Pos
  | .up => ⟨0, -1⟩
  | .down => ⟨0, 1⟩
  | .left => ⟨-1, 0⟩
  | .right => ⟨1, 0⟩

/-- Modelled from the spec: the fixed canonical enumeration order
Up, Down, Left, Right of the game API's `getDirectionFromValue`,
which is missing from the sources.  The spec states the default
direction `Direction::Up` is the first in canonical order. -/
def getDirectionFromValue : Nat → Direction
  | 0 => .up
  | 1 => .down
  | 2 => .left
  | _ => .right

/-- Modelled from the spec: a player has an identity and a current
position (the game API's `Player`, missing from the sources). -/
structure Player where
  name : String
  position : Pos
deriving DecidableEq, Repr

/-- Modelled from the spec: the grid is a fixed-width by fixed-height
mapping from cell coordinate to occupancy (0 = free, nonzero =
blocked).  The grid contents are stored column-major, indexed
`grid[x][y]`, mirroring the source's `visited[pos.x][pos.y]` layout. -/
structure GameState where
  gridWidth : Nat
  gridHeight : Nat
  grid : List (List Nat)
deriving DecidableEq, Repr

/-- Reads entry `(x, y)` of a list-of-columns table; `d` is returned
when the index is outside the stored table. -/
def get2 {α : Type} (g : List (List α)) (x y : Nat) (d : α) : α :=
  (g.getD x []).getD y d

/-- Writes entry `(x, y)` of a list-of-columns table; writes outside
the stored table leave it unchanged. -/
def set2 {α : Type} (g : List (List α)) (x y : Nat) (a : α) : List (List α) :=
  g.set x ((g.getD x []).set y a)

/-- Modelled from the spec: a position is inside the grid iff both
components lie within bounds (the game API's `isInsideGrid`, missing
from the sources). -/
def GameState.isInsideGrid (gs : GameState) (p : Pos) : Bool :=
  decide (0 ≤ p.x ∧ p.x < (gs.gridWidth : Int) ∧ 0 ≤ p.y ∧ p.y < (gs.gridHeight : Int))

/-- Modelled from the spec: occupancy of a cell (the game API's
`getGridCell`, missing from the sources).  The engine only reads cells
after an `isInsideGrid` check; positions outside the stored table read
as free. -/
def GameState.getGridCell (gs : GameState) (p : Pos) : Nat :=
  if 0 ≤ p.x ∧ 0 ≤ p.y then get2 gs.grid p.x.toNat p.y.toNat 0 else 0

/-- Modelled from the spec: overwrite the occupancy of a cell (the
game API's `setGridCell`, missing from the sources). -/
def GameState.setGridCell (gs : GameState) (p : Pos) (v : Nat) : GameState :=
  if 0 ≤ p.x ∧ 0 ≤ p.y then
    { gs with grid := set2 gs.grid p.x.toNat p.y.toNat v }
  else gs

/-- Translation of the source's `is_valid_move`: the destination is
the player's position plus the direction vector; the move is invalid
when the destination is outside the grid or its cell is occupied. -/
def is_valid_move (gameState : GameState) (player : Player) (direction : Direction) : Bool :=
  let new_pos := player.position + getDirectionVector direction
  if gameState.isInsideGrid new_pos = false then
    false
  else if gameState.getGridCell new_pos ≠ 0 then
    false
  else
    true

/-- Translation of the source's `movePlayer`: mark the destination
cell occupied and update the (by-reference) player's position.  The
C++ mutation of the two reference parameters is modelled by returning
the updated pair. -/
def movePlayer (gameState : GameState) (player : Player) (dir : Direction) : GameState × Player :=
  let new_pos := player.position + getDirectionVector dir
  (gameState.setGridCell new_pos 1, { player with position := new_pos })

/-- Fresh all-false visited table of the flood fill, sized
`gridWidth` by `gridHeight` as in the source. -/
def mkVisited (w h : Nat) : List (List Bool) :=
  List.replicate w (List.replicate h false)

/-- Visited-table read `visited[pos.x][pos.y]`.  The source only reads
after `isInsideGrid`, so the guarded cases (negative component or
index beyond the stored table) never arise on that path; they are
mapped to `true` (treated as already seen). -/
def visGet (v : List (List Bool)) (p : Pos) : Bool :=
  if 0 ≤ p.x ∧ 0 ≤ p.y then get2 v p.x.toNat p.y.toNat true else true

/-- Visited-table write `visited[pos.x][pos.y] = true`. -/
def visSet (v : List (List Bool)) (p : Pos) : List (List Bool) :=
  if 0 ≤ p.x ∧ 0 ≤ p.y then set2 v p.x.toNat p.y.toNat true else v

/-- Number of false entries of a visited table. -/
def countFalse (v : List (List Bool)) : Nat :=
  (v.map (fun col => col.count false)).sum

/-- The four neighbour positions the flood fill pushes, in direction
value order 0..3 as in the source loop. -/
def neighborCells (p : Pos) : List Pos :=
  [0, 1, 2, 3].map (fun v => p + getDirectionVector (getDirectionFromValue v))

/-- Translation of the source's flood-fill `while (!queue.empty())`
loop.  The loop is embedded with an explicit step-count (`fuel`):
every iteration pops one queue element, so the count of remaining
iterations is bounded by `queue.length + 4 * countFalse visited`
(each visit pushes four elements and turns one false entry true).
`floodFillAux_fuel_irrelevant` below proves any fuel at least that
bound yields the same result, so the embedding computes exactly what
the unbounded loop computes. -/
def floodFillAux (gs : GameState) : Nat → List Pos → List (List Bool) → Nat → Nat
  | 0, _, _, area => area
  | _ + 1, [], _, area => area
  | fuel + 1, pos :: rest, visited, area =>
    if gs.isInsideGrid pos = false then
      floodFillAux gs fuel rest visited area
    else if visGet visited pos then
      floodFillAux gs fuel rest visited area
    else if gs.getGridCell pos ≠ 0 then
      floodFillAux gs fuel rest visited area
    else
      floodFillAux gs fuel (rest ++ neighborCells pos) (visSet visited pos) (area + 1)

/-- Sufficient step count for the flood-fill loop started on one queue
element with a fresh visited table. -/
def floodFillFuel (gs : GameState) : Nat :=
  1 + 4 * (gs.gridWidth * gs.gridHeight)

/-- Translation of the source's `floodFill`: breadth-first traversal
from `start_pos` with a per-call visited table sized to the board. -/
def floodFill (gs : GameState) (start_pos : Pos) : Nat :=
  floodFillAux gs (floodFillFuel gs) [start_pos] (mkVisited gs.gridWidth gs.gridHeight) 0

/-- Translation of the source's `evaluate`: difference of the
accessible areas of the engine's `my_player` and `opponent` member
fields, which are passed explicitly here. -/
def evaluate (my_player opponent : Player) (gameState : GameState) : Int :=
  let my_area := floodFill gameState my_player.position
  let opp_area := floodFill gameState opponent.position
  (my_area : Int) - (opp_area : Int)

/-- Translation of the source's `game_over`: neither member player has
a valid move in any of the four direction values. -/
def game_over (my_player opponent : Player) (gameState : GameState) : Bool :=
  let dirs := ([0, 1, 2, 3].map getDirectionFromValue)
  let my_moves := dirs.any (fun d => is_valid_move gameState my_player d)
  let opp_moves := dirs.any (fun d => is_valid_move gameState opponent d)
  !(my_moves || opp_moves)

/-- Sentinel value of the source's `std::numeric_limits<int>::min()`. -/
def INT_MIN : Int := -(2 ^ 31)

/-- Sentinel value of the source's `std::numeric_limits<int>::max()`. -/
def INT_MAX : Int := 2 ^ 31 - 1

/-- The maximizing branch loop of the source's `minimax`: fold over
the remaining direction values carrying `maxEval` and `alpha`,
breaking once `beta <= alpha`.  `f` is the recursive call at depth
one less with `maximizingPlayer = false`.  As in the source, the
updated player produced by `movePlayer` is dropped (`.1`): only the
grid copy is passed down. -/
def abMaxLoop (my_player : Player) (gs : GameState) (f : GameState → Int → Int → Int) :
    List Nat → Int → Int → Int → Int
  | [], maxEval, _, _ => maxEval
  | v :: rest, maxEval, alpha, beta =>
    let dir := getDirectionFromValue v
    if is_valid_move gs my_player dir then
      let e := f (movePlayer gs my_player dir).1 alpha beta
      let m := max maxEval e
      let a := max alpha e
      if beta ≤ a then m else abMaxLoop my_player gs f rest m a beta
    else
      abMaxLoop my_player gs f rest maxEval alpha beta

/-- The minimizing branch loop of the source's `minimax`, symmetric to
`abMaxLoop` with `minEval` and `beta`. -/
def abMinLoop (opponent : Player) (gs : GameState) (f : GameState → Int → Int → Int) :
    List Nat → Int → Int → Int → Int
  | [], minEval, _, _ => minEval
  | v :: rest, minEval, alpha, beta =>
    let dir := getDirectionFromValue v
    if is_valid_move gs opponent dir then
      let e := f (movePlayer gs opponent dir).1 alpha beta
      let m := min minEval e
      let b := min beta e
      if b ≤ alpha then m else abMinLoop opponent gs f rest m alpha b
    else
      abMinLoop opponent gs f rest minEval alpha beta

/-- Translation of the source's `minimax` with alpha-beta pruning.
The engine's member fields `my_player` and `opponent` are explicit
parameters; as in the source they are never updated during the
search — only the grid copy changes. -/
def minimax (my_player opponent : Player) (gameState : GameState) :
    Nat → Bool → Int → Int → Int
  | 0, _, _, _ => evaluate my_player opponent gameState
  | depth + 1, maximizingPlayer, alpha, beta =>
    if game_over my_player opponent gameState then
      evaluate my_player opponent gameState
    else if maximizingPlayer then
      abMaxLoop my_player gameState
        (fun g a b => minimax my_player opponent g depth false a b)
        [0, 1, 2, 3] INT_MIN alpha beta
    else
      abMinLoop opponent gameState
        (fun g a b => minimax my_player opponent g depth true a b)
        [0, 1, 2, 3] INT_MAX alpha beta

/-- The source's `MAX_DEPTH` configuration constant. -/
def MAX_DEPTH : Nat := 3

/-- The loop of the source's `decideMove`: track the best score with
strict improvement (`score > bestScore`), starting from `INT_MIN` and
the default direction. -/
def decideLoop (my_player opponent : Player) (gs : GameState) :
    List Nat → Int → Direction → Direction
  | [], _, bestMove => bestMove
  | v :: rest, bestScore, bestMove =>
    let dir := getDirectionFromValue v
    if is_valid_move gs my_player dir then
      let score := minimax my_player opponent (movePlayer gs my_player dir).1
        (MAX_DEPTH - 1) false INT_MIN INT_MAX
      if bestScore < score then decideLoop my_player opponent gs rest score dir
      else decideLoop my_player opponent gs rest bestScore bestMove
    else
      decideLoop my_player opponent gs rest bestScore bestMove

/-- Translation of the source's `decideMove`. -/
def decideMove (my_player opponent : Player) (gs : GameState) : Direction :=
  decideLoop my_player opponent gs [0, 1, 2, 3] INT_MIN Direction.up

/-! Specification-side notions used to state the claims. -/

/-- A cell is free when it is inside the grid and unoccupied. -/
def freeCell (gs : GameState) (p : Pos) : Prop :=
  gs.isInsideGrid p = true ∧ gs.getGridCell p = 0

instance (gs : GameState) : DecidablePred (freeCell gs) := fun _ =>
  instDecidableAnd

instance : Fintype Direction :=
  ⟨⟨{.up, .down, .left, .right}, by decide⟩, fun d => by cases d <;> decide⟩

/-- Two positions are orthogonally adjacent when one is the other
plus a direction's unit vector. -/
def adjacentPos (p q : Pos) : Prop :=
  ∃ d : Direction, q = p + getDirectionVector d

instance (p q : Pos) : Decidable (adjacentPos p q) :=
  Fintype.decidableExistsFintype

/-- Reachability through free cells from `p`, avoiding positions
satisfying `V`: every cell on the path (endpoints included) is free
and not in `V`. -/
inductive ReachAvoid (gs : GameState) (V : Pos → Prop) : Pos → Pos → Prop where
  | refl : ∀ p, freeCell gs p → ¬ V p → ReachAvoid gs V p p
  | tail : ∀ p q r, ReachAvoid gs V p q → adjacentPos q r → freeCell gs r → ¬ V r →
      ReachAvoid gs V p r

/-- A cell is reachable from `s` when connected to it through
orthogonally adjacent free cells. -/
def Reaches (gs : GameState) (s p : Pos) : Prop :=
  ReachAvoid gs (fun _ => False) s p

/-- The finite set of in-bounds positions of the grid. -/
def cells (gs : GameState) : Finset Pos :=
  ((Finset.Icc (0 : ℤ) ((gs.gridWidth : ℤ) - 1)) ×ˢ
    (Finset.Icc (0 : ℤ) ((gs.gridHeight : ℤ) - 1))).image (fun q => ⟨q.1, q.2⟩)

/-- The unpruned maximizing fold: maximum of the plain child values
over the legal direction values, starting from the accumulator. -/
def plainMaxLoop (my_player : Player) (gs : GameState) (pf : GameState → Int) :
    List Nat → Int → Int
  | [], acc => acc
  | v :: rest, acc =>
    let dir := getDirectionFromValue v
    if is_valid_move gs my_player dir then
      plainMaxLoop my_player gs pf rest (max acc (pf (movePlayer gs my_player dir).1))
    else
      plainMaxLoop my_player gs pf rest acc

/-- The unpruned minimizing fold, symmetric to `plainMaxLoop`. -/
def plainMinLoop (opponent : Player) (gs : GameState) (pf : GameState → Int) :
    List Nat → Int → Int
  | [], acc => acc
  | v :: rest, acc =>
    let dir := getDirectionFromValue v
    if is_valid_move gs opponent dir then
      plainMinLoop opponent gs pf rest (min acc (pf (movePlayer gs opponent dir).1))
    else
      plainMinLoop opponent gs pf rest acc

/-- Modelled from the spec: the full, unpruned minimax traversal of
the same game tree the source's `minimax` explores — same terminal
conditions, same child generation, no alpha-beta window. -/
def minimaxPlain (my_player opponent : Player) (gameState : GameState) :
    Nat → Bool → Int
  | 0, _ => evaluate my_player opponent gameState
  | depth + 1, maximizingPlayer =>
    if game_over my_player opponent gameState then
      evaluate my_player opponent gameState
    else if maximizingPlayer then
      plainMaxLoop my_player gameState
        (fun g => minimaxPlain my_player opponent g depth false) [0, 1, 2, 3] INT_MIN
    else
      plainMinLoop opponent gameState
        (fun g => minimaxPlain my_player opponent g depth true) [0, 1, 2, 3] INT_MAX

/-- The four directions in canonical enumeration order. -/
def canonDirs : List Direction :=
  [.up, .down, .left, .right]

/-- The score `decideMove` computes for a candidate first move. -/
def dirScore (my_player opponent : Player) (gs : GameState) (d : Direction) : Int :=
  minimax my_player opponent (movePlayer gs my_player d).1 (MAX_DEPTH - 1)
    false INT_MIN INT_MAX

/-- Maximum of the scores of self's legal directions, starting from
the sentinel `INT_MIN`. -/
def maxLegalScore (my_player opponent : Player) (gs : GameState) : Int :=
  ((canonDirs.filter (fun d => is_valid_move gs my_player d)).map
    (dirScore my_player opponent gs)).foldl max INT_MIN

/-- Running maximum of the scores of the legal directions among the
direction values `l`, starting from `bs`; mirrors the accumulator of
the decision loop. -/
def scoresFoldFrom (my_player opponent : Player) (gs : GameState)
    (l : List Nat) (bs : Int) : Int :=
  (((l.map getDirectionFromValue).filter (fun d => is_valid_move gs my_player d)).map
    (dirScore my_player opponent gs)).foldl max bs

/-- Well-formed grid storage: the stored table has exactly the
declared dimensions. -/
def gridWF (gs : GameState) : Prop :=
  gs.grid.length = gs.gridWidth ∧ ∀ col ∈ gs.grid, col.length = gs.gridHeight

instance (gs : GameState) : Decidable (gridWF gs) :=
  instDecidableAnd

/-! Concrete states used as failing inputs and witnesses. -/

/-- A 3 by 1 fully free corridor. -/
def exCorridor : GameState := ⟨3, 1, [[0], [0], [0]]⟩

/-- Self at the left end of the corridor. -/
def exCorridorSelf : Player := ⟨"", ⟨0, 0⟩⟩

/-- Opponent at the right end of the corridor. -/
def exCorridorOpp : Player := ⟨"", ⟨2, 0⟩⟩

/-- A 4 by 2 grid with the single cell (1, 0) occupied. -/
def exTrap : GameState := ⟨4, 2, [[0, 0], [1, 0], [0, 0], [0, 0]]⟩

/-- Self at (0, 0): Up, Left are out of bounds, Right is blocked, so
Down is the only legal direction. -/
def exTrapSelf : Player := ⟨"", ⟨0, 0⟩⟩

/-- Opponent at (2, 1) with several legal directions. -/
def exTrapOpp : Player := ⟨"", ⟨2, 1⟩⟩

/-- A 3 by 3 fully free grid. -/
def exOpen : GameState := ⟨3, 3, [[0, 0, 0], [0, 0, 0], [0, 0, 0]]⟩

/-- Self at the top-left corner of the open grid. -/
def exOpenSelf : Player := ⟨"", ⟨0, 0⟩⟩

/-- Opponent at the bottom-right corner of the open grid. -/
def exOpenOpp : Player := ⟨"", ⟨2, 2⟩⟩

/-- A 3 by 3 grid whose centre cell (1, 1) is the single free cell,
surrounded by blocked cells. -/
def exIso : GameState := ⟨3, 3, [[1, 1, 1], [1, 0, 1], [1, 1, 1]]⟩

/-- A 1 by 1 grid whose only cell is where self stands; every
direction leads out of bounds. -/
def exStuck : GameState := ⟨1, 1, [[0]]⟩

/-- Self on the 1 by 1 grid. -/
def exStuckSelf : Player := ⟨"", ⟨0, 0⟩⟩

/-! Basic lemmas about the grid model -/

theorem isInsideGrid_iff (gs : GameState) (p : Pos) :
    gs.isInsideGrid p = true ↔
      0 ≤ p.x ∧ p.x < (gs.gridWidth : Int) ∧ 0 ≤ p.y ∧ p.y < (gs.gridHeight : Int) := by
  simp [GameState.isInsideGrid]

theorem direction_cases (d : Direction) :
    d = getDirectionFromValue 0 ∨ d = getDirectionFromValue 1 ∨
      d = getDirectionFromValue 2 ∨ d = getDirectionFromValue 3 := by
  cases d <;> simp [getDirectionFromValue]

theorem is_valid_move_iff_freeCell (gs : GameState) (pl : Player) (d : Direction) :
    is_valid_move gs pl d = true ↔ freeCell gs (pl.position + getDirectionVector d) := by
  unfold is_valid_move freeCell
  by_cases h1 : gs.isInsideGrid (pl.position + getDirectionVector d) = false
  · simp [h1]
  · by_cases h2 : gs.getGridCell (pl.position + getDirectionVector d) = 0 <;>
      simp_all

theorem getD_set_self {α : Type} (l : List α) (i : Nat) (a d : α) (h : i < l.length) :
    (l.set i a).getD i d = a := by
  simp [List.getD, List.getElem?_set_self', List.getElem?_eq_getElem h]

theorem get2_set2_self {α : Type} (g : List (List α)) (x y : Nat) (a d : α)
    (hx : x < g.length) (hy : y < (g.getD x []).length) :
    get2 (set2 g x y a) x y d = a := by
  unfold get2 set2
  rw [getD_set_self g x ((g.getD x []).set y a) [] hx]
  exact getD_set_self _ y a d hy

theorem get2_set2_ne {α : Type} (g : List (List α)) (x y x' y' : Nat) (a d : α)
    (h : x ≠ x' ∨ y ≠ y') : get2 (set2 g x y a) x' y' d = get2 g x' y' d := by
  unfold get2 set2
  rcases h with h | h
  · have hout : (g.set x ((g.getD x []).set y a)).getD x' [] = g.getD x' [] := by
      simp [List.getD, List.getElem?_set_ne h]
    rw [hout]
  · by_cases hx : x = x'
    · subst hx
      by_cases hlen : x < g.length
      · rw [getD_set_self g x ((g.getD x []).set y a) [] hlen]
        simp [List.getD, List.getElem?_set_ne h]
      · have h1 : (g.set x ((g.getD x []).set y a)).getD x [] = [] :=
          List.getD_eq_default _ _ (by simp [not_lt.mp hlen])
        have h2 : g.getD x [] = [] := List.getD_eq_default _ _ (not_lt.mp hlen)
        rw [h1, h2]
    · have hout : (g.set x ((g.getD x []).set y a)).getD x' [] = g.getD x' [] := by
        simp [List.getD, List.getElem?_set_ne hx]
      rw [hout]

theorem length_set2 {α : Type} (g : List (List α)) (x y : Nat) (a : α) :
    (set2 g x y a).length = g.length :=
  List.length_set g x ((g.getD x []).set y a)

theorem get2_true_lt (v : List (List Bool)) (x y : Nat)
    (h : get2 v x y true = false) :
    x < v.length ∧ y < (v.getD x []).length := by
  unfold get2 at h
  by_cases hx : x < v.length
  · refine ⟨hx, ?_⟩
    by_cases hy : y < (v.getD x []).length
    · exact hy
    · have h0 : (v.getD x []).getD y true = true := List.getD_eq_default _ _ (by omega)
      rw [h0] at h
      simp at h
  · have h0 : v.getD x [] = [] := List.getD_eq_default _ _ (by omega)
    rw [h0] at h
    simp [List.getD] at h

theorem visGet_nonneg (v : List (List Bool)) (p : Pos) (h : visGet v p = false) :
    0 ≤ p.x ∧ 0 ≤ p.y := by
  unfold visGet at h
  by_cases hc : 0 ≤ p.x ∧ 0 ≤ p.y
  · exact hc
  · simp [hc] at h

theorem visGet_visSet (v : List (List Bool)) (p : Pos) (h : visGet v p = false)
    (q : Pos) : visGet (visSet v p) q = if q = p then true else visGet v q := by
  obtain ⟨hpx, hpy⟩ := visGet_nonneg v p h
  have hlt := get2_true_lt v p.x.toNat p.y.toNat (by simpa [visGet, hpx, hpy] using h)
  unfold visSet
  rw [if_pos ⟨hpx, hpy⟩]
  by_cases hq : q = p
  · subst hq
    simp only [if_pos rfl, visGet, if_pos (⟨hpx, hpy⟩ : 0 ≤ q.x ∧ 0 ≤ q.y)]
    exact get2_set2_self v _ _ _ _ hlt.1 hlt.2
  · rw [if_neg hq]
    unfold visGet
    by_cases hqc : 0 ≤ q.x ∧ 0 ≤ q.y
    · rw [if_pos hqc, if_pos hqc]
      apply get2_set2_ne
      by_cases hxx : p.x.toNat = q.x.toNat
      · right
        intro hyy
        apply hq
        have : q.x = p.x := by omega
        have : q.y = p.y := by omega
        cases q
        cases p
        simp_all
      · left
        exact hxx
    · rw [if_neg hqc, if_neg hqc]

theorem count_false_set (l : List Bool) (i : Nat) (h : l.getD i true = false) :
    (l.set i true).count false + 1 = l.count false := by
  induction l generalizing i with
  | nil => simp [List.getD] at h
  | cons b t ih =>
    cases i with
    | zero =>
      simp [List.getD] at h
      subst h
      simp [List.count_cons]
    | succ j =>
      have h' : t.getD j true = false := by simpa [List.getD] using h
      simp only [List.set, List.count_cons]
      have := ih j h'
      omega

theorem countFalse_set_col (v : List (List Bool)) (x : Nat) (c : List Bool)
    (hx : x < v.length) :
    countFalse (v.set x c) + (v.getD x []).count false =
      countFalse v + c.count false := by
  induction v generalizing x with
  | nil => simp at hx
  | cons col t ih =>
    cases x with
    | zero =>
      have h1 : (col :: t).set 0 c = c :: t := rfl
      have h2 : (col :: t).getD 0 [] = col := rfl
      rw [h1, h2]
      simp only [countFalse, List.map_cons, List.sum_cons]
      ring
    | succ j =>
      have hj : j < t.length := by simpa using hx
      have ht := ih j hj
      have h1 : (col :: t).set (j + 1) c = col :: t.set j c := rfl
      have h2 : (col :: t).getD (j + 1) [] = t.getD j [] := rfl
      rw [h1, h2]
      simp only [countFalse, List.map_cons, List.sum_cons] at *
      omega

theorem countFalse_visSet (v : List (List Bool)) (p : Pos) (h : visGet v p = false) :
    countFalse (visSet v p) + 1 = countFalse v := by
  obtain ⟨hpx, hpy⟩ := visGet_nonneg v p h
  have h' : get2 v p.x.toNat p.y.toNat true = false := by simpa [visGet, hpx, hpy] using h
  have hlt := get2_true_lt v p.x.toNat p.y.toNat h'
  have hcol := count_false_set (v.getD p.x.toNat []) p.y.toNat (by
    exact h')
  have hsum := countFalse_set_col v p.x.toNat ((v.getD p.x.toNat []).set p.y.toNat true) hlt.1
  unfold visSet set2
  rw [if_pos ⟨hpx, hpy⟩]
  omega

theorem floodFillAux_nil (gs : GameState) (fuel : Nat) (v : List (List Bool)) (a : Nat) :
    floodFillAux gs fuel [] v a = a := by
  cases fuel <;> rfl

/-! C5: legality of moves -/

/-- C5: `is_valid_move` returns true iff the destination cell — the
player's position plus the direction's unit vector — lies inside the
grid bounds and is free; in particular it returns false whenever the
destination is out of bounds or blocked. -/
theorem c5_legality (gs : GameState) (pl : Player) (d : Direction) :
    is_valid_move gs pl d = true ↔
      (0 ≤ (pl.position + getDirectionVector d).x ∧
        (pl.position + getDirectionVector d).x < (gs.gridWidth : Int) ∧
        0 ≤ (pl.position + getDirectionVector d).y ∧
        (pl.position + getDirectionVector d).y < (gs.gridHeight : Int) ∧
        gs.getGridCell (pl.position + getDirectionVector d) = 0) := by
  rw [is_valid_move_iff_freeCell]
  unfold freeCell
  rw [isInsideGrid_iff]
  tauto

/-! C6: terminal detection -/

/-- C6: `game_over` returns true iff neither self nor opponent has
any legal move: both players' legal move sets over the four
directions are empty. -/
theorem c6_game_over_iff (mp op : Player) (gs : GameState) :
    game_over mp op gs = true ↔
      (∀ d : Direction, is_valid_move gs mp d = false) ∧
        (∀ d : Direction, is_valid_move gs op d = false) := by
  simp only [game_over, List.map_cons, List.map_nil, List.any_cons, List.any_nil,
    Bool.not_eq_true', Bool.or_eq_false_iff]
  constructor
  · rintro ⟨⟨h0, h1, h2, h3, -⟩, k0, k1, k2, k3, -⟩
    constructor <;> intro d <;> rcases direction_cases d with h | h | h | h <;> subst h <;>
      assumption
  · rintro ⟨h, k⟩
    exact ⟨⟨h _, h _, h _, h _, trivial⟩, k _, k _, k _, k _, trivial⟩

/-! C8: decision with no legal move -/

/-- C8: when self has no legal move in any direction, `decideMove`
still returns a value, namely the default direction `Up`, the first
in canonical enumeration order. -/
theorem c8_decide_default (mp op : Player) (gs : GameState)
    (h : ∀ d : Direction, is_valid_move gs mp d = false) :
    decideMove mp op gs = Direction.up ∧ Direction.up = getDirectionFromValue 0 := by
  refine ⟨?_, rfl⟩
  simp [decideMove, decideLoop, h]

/-- Witness for C8: on the 1 by 1 board every direction is out of
bounds, and the decision is the default direction `Up`. -/
theorem c8_witness :
    (∀ d : Direction, is_valid_move exStuck exStuckSelf d = false) ∧
      (decideMove exStuckSelf exStuckSelf exStuck = Direction.up ∧
        Direction.up = getDirectionFromValue 0) :=
  ⟨by decide, c8_decide_default exStuckSelf exStuckSelf exStuck (by decide)⟩

/-! C9: move application is a one-cell frame change -/

theorem setGridCell_gridWidth (gs : GameState) (p : Pos) (v : Nat) :
    (gs.setGridCell p v).gridWidth = gs.gridWidth := by
  unfold GameState.setGridCell
  split <;> rfl

theorem setGridCell_gridHeight (gs : GameState) (p : Pos) (v : Nat) :
    (gs.setGridCell p v).gridHeight = gs.gridHeight := by
  unfold GameState.setGridCell
  split <;> rfl

theorem getGridCell_setGridCell_self (gs : GameState) (p : Pos) (v : Nat)
    (hwf : gridWF gs) (hin : gs.isInsideGrid p = true) :
    (gs.setGridCell p v).getGridCell p = v := by
  obtain ⟨hwl, hwc⟩ := hwf
  obtain ⟨hx0, hxw, hy0, hyh⟩ := (isInsideGrid_iff gs p).mp hin
  have hc : 0 ≤ p.x ∧ 0 ≤ p.y := ⟨hx0, hy0⟩
  unfold GameState.setGridCell GameState.getGridCell
  rw [if_pos hc]
  simp only [if_pos hc]
  have hxl : p.x.toNat < gs.grid.length := by omega
  apply get2_set2_self
  · exact hxl
  · rw [List.getD_eq_getElem _ _ hxl]
    rw [hwc _ (List.getElem_mem hxl)]
    omega

theorem getGridCell_setGridCell_ne (gs : GameState) (p q : Pos) (v : Nat)
    (hne : q ≠ p) : (gs.setGridCell p v).getGridCell q = gs.getGridCell q := by
  unfold GameState.setGridCell GameState.getGridCell
  by_cases hp : 0 ≤ p.x ∧ 0 ≤ p.y
  · rw [if_pos hp]
    by_cases hq : 0 ≤ q.x ∧ 0 ≤ q.y
    · simp only [if_pos hq]
      apply get2_set2_ne
      by_cases hxx : p.x.toNat = q.x.toNat
      · right
        intro hyy
        apply hne
        have hx : q.x = p.x := by omega
        have hy : q.y = p.y := by omega
        cases q
        cases p
        simp_all
      · left
        exact hxx
    · simp only [if_neg hq]
  · rw [if_neg hp]

/-- C9: the decision engine is a pure function of its inputs — the
supplied state is a value, never mutated — and applying a move during
search changes exactly one observable thing in the copy it returns:
the destination cell becomes blocked, the moved player's position
becomes the destination, and every other cell, the player's identity
and the grid dimensions are unchanged. -/
theorem c9_movePlayer_frame (gs : GameState) (pl : Player) (dir : Direction)
    (hwf : gridWF gs) (hv : is_valid_move gs pl dir = true) :
    (movePlayer gs pl dir).2.position = pl.position + getDirectionVector dir ∧
    (movePlayer gs pl dir).2.name = pl.name ∧
    (movePlayer gs pl dir).1.getGridCell (pl.position + getDirectionVector dir) = 1 ∧
    (∀ p : Pos, p ≠ pl.position + getDirectionVector dir →
      (movePlayer gs pl dir).1.getGridCell p = gs.getGridCell p) ∧
    (movePlayer gs pl dir).1.gridWidth = gs.gridWidth ∧
    (movePlayer gs pl dir).1.gridHeight = gs.gridHeight := by
  have hfree := (is_valid_move_iff_freeCell gs pl dir).mp hv
  refine ⟨rfl, rfl, ?_, ?_, ?_, ?_⟩
  · exact getGridCell_setGridCell_self gs _ 1 hwf hfree.1
  · intro p hp
    exact getGridCell_setGridCell_ne gs _ p 1 hp
  · exact setGridCell_gridWidth gs _ 1
  · exact setGridCell_gridHeight gs _ 1

/-- Witness for C9 on a concrete two-cell corridor: self moves right
from (0,0) onto (1,0). -/
theorem c9_witness :
    (gridWF exCorridor ∧ is_valid_move exCorridor exCorridorSelf Direction.right = true) ∧
      ((movePlayer exCorridor exCorridorSelf Direction.right).2.position =
          exCorridorSelf.position + getDirectionVector Direction.right ∧
        (movePlayer exCorridor exCorridorSelf Direction.right).2.name = exCorridorSelf.name ∧
        (movePlayer exCorridor exCorridorSelf Direction.right).1.getGridCell
          (exCorridorSelf.position + getDirectionVector Direction.right) = 1 ∧
        (∀ p : Pos, p ≠ exCorridorSelf.position + getDirectionVector Direction.right →
          (movePlayer exCorridor exCorridorSelf Direction.right).1.getGridCell p =
            exCorridor.getGridCell p) ∧
        (movePlayer exCorridor exCorridorSelf Direction.right).1.gridWidth =
          exCorridor.gridWidth ∧
        (movePlayer exCorridor exCorridorSelf Direction.right).1.gridHeight =
          exCorridor.gridHeight) :=
  ⟨⟨by decide, by decide⟩,
    c9_movePlayer_frame exCorridor exCorridorSelf Direction.right (by decide) (by decide)⟩

/-! C10: flood fill is total and memory safe -/

theorem visGet_mkVisited (gs : GameState) (p : Pos)
    (hin : gs.isInsideGrid p = true) :
    visGet (mkVisited gs.gridWidth gs.gridHeight) p = false := by
  obtain ⟨hx0, hxw, hy0, hyh⟩ := (isInsideGrid_iff gs p).mp hin
  unfold visGet mkVisited get2
  rw [if_pos ⟨hx0, hy0⟩]
  have h1 : (List.replicate gs.gridWidth (List.replicate gs.gridHeight false)).getD
      p.x.toNat [] = List.replicate gs.gridHeight false := by
    rw [List.getD_eq_getElem _ _ (by simpa using by omega : p.x.toNat <
      (List.replicate gs.gridWidth (List.replicate gs.gridHeight false)).length)]
    simp
  rw [h1]
  rw [List.getD_eq_getElem _ _ (by simpa using by omega : p.y.toNat <
    (List.replicate gs.gridHeight false).length)]
  simp

/-- C10: `floodFill` is total on every start position, not only those
satisfying the documented precondition: when the start is out of
bounds or its cell is blocked it returns 0; and the visited table is
only indexed after the in-bounds check — every in-bounds position
indexes strictly within the table, whose shape `visSet` preserves. -/
theorem c10_floodFill_total (gs : GameState) (p : Pos) :
    (¬ (gs.isInsideGrid p = true ∧ gs.getGridCell p = 0) → floodFill gs p = 0) ∧
    (gs.isInsideGrid p = true →
      p.x.toNat < (mkVisited gs.gridWidth gs.gridHeight).length ∧
      p.y.toNat < ((mkVisited gs.gridWidth gs.gridHeight).getD p.x.toNat []).length) ∧
    (∀ v : List (List Bool), ∀ q : Pos, (visSet v q).length = v.length ∧
      ∀ i : Nat, ((visSet v q).getD i []).length = (v.getD i []).length) := by
  refine ⟨?_, ?_, ?_⟩
  · intro hbad
    unfold floodFill floodFillFuel
    rw [show 1 + 4 * (gs.gridWidth * gs.gridHeight) =
      4 * (gs.gridWidth * gs.gridHeight) + 1 from by ring]
    by_cases hin : gs.isInsideGrid p = true
    · have hocc : gs.getGridCell p ≠ 0 := by tauto
      unfold floodFillAux
      rw [if_neg (by simp [hin]), if_neg (by simp [visGet_mkVisited gs p hin]), if_pos hocc]
      exact floodFillAux_nil gs _ _ 0
    · unfold floodFillAux
      rw [if_pos (by simpa using hin)]
      exact floodFillAux_nil gs _ _ 0
  · intro hin
    obtain ⟨hx0, hxw, hy0, hyh⟩ := (isInsideGrid_iff gs p).mp hin
    constructor
    · simp only [mkVisited, List.length_replicate]
      omega
    · have h1 : (List.replicate gs.gridWidth (List.replicate gs.gridHeight false)).getD
          p.x.toNat [] = List.replicate gs.gridHeight false := by
        rw [List.getD_eq_getElem _ _ (by simpa using by omega : p.x.toNat <
          (List.replicate gs.gridWidth (List.replicate gs.gridHeight false)).length)]
        simp
      simp only [mkVisited, h1, List.length_replicate]
      omega
  · intro v q
    constructor
    · unfold visSet
      split
      · exact length_set2 v _ _ true
      · rfl
    · intro i
      unfold visSet
      split
      · unfold set2
        by_cases hi : q.x.toNat = i
        · subst hi
          by_cases hl : q.x.toNat < v.length
          · rw [getD_set_self v _ _ [] hl]
            simp [List.length_set]
          · have h1 : (v.set q.x.toNat ((v.getD q.x.toNat []).set q.y.toNat true)).getD
                q.x.toNat [] = [] := List.getD_eq_default _ _ (by simp [not_lt.mp hl])
            have h2 : v.getD q.x.toNat [] = [] := List.getD_eq_default _ _ (not_lt.mp hl)
            rw [h1, h2]
        · have h3 : (v.set q.x.toNat ((v.getD q.x.toNat []).set q.y.toNat true)).getD
              i [] = v.getD i [] := by
            simp [List.getD, List.getElem?_set_ne hi]
          rw [h3]
      · rfl

/-- Witness for C10: a blocked start cell yields area 0, and the
in-bounds start (0, 0) of the trap grid indexes within the table. -/
theorem c10_witness :
    (¬ (exTrap.isInsideGrid ⟨1, 0⟩ = true ∧ exTrap.getGridCell ⟨1, 0⟩ = 0) ∧
        floodFill exTrap ⟨1, 0⟩ = 0) ∧
      (exTrap.isInsideGrid ⟨1, 0⟩ = true ∧
        (⟨1, 0⟩ : Pos).x.toNat < (mkVisited exTrap.gridWidth exTrap.gridHeight).length ∧
        (⟨1, 0⟩ : Pos).y.toNat <
          ((mkVisited exTrap.gridWidth exTrap.gridHeight).getD (⟨1, 0⟩ : Pos).x.toNat []).length) :=
  ⟨⟨by decide, (c10_floodFill_total exTrap ⟨1, 0⟩).1 (by decide)⟩,
    ⟨by decide, (c10_floodFill_total exTrap ⟨1, 0⟩).2.1 (by decide)⟩⟩

/-! Reachability lemmas -/

theorem pos_eq_iff (p q : Pos) : p = q ↔ p.x = q.x ∧ p.y = q.y := by
  constructor
  · rintro rfl
    exact ⟨rfl, rfl⟩
  · rintro ⟨h1, h2⟩
    cases p
    cases q
    simp_all

theorem RA_dst {gs : GameState} {V : Pos → Prop} {p c : Pos}
    (h : ReachAvoid gs V p c) : freeCell gs c ∧ ¬ V c := by
  cases h with
  | refl hf hv => exact ⟨hf, hv⟩
  | tail q r hpq hadj hf hv => exact ⟨hf, hv⟩

theorem RA_src {gs : GameState} {V : Pos → Prop} {p c : Pos}
    (h : ReachAvoid gs V p c) : freeCell gs p ∧ ¬ V p := by
  induction h with
  | refl hf hv => exact ⟨hf, hv⟩
  | tail q r hpq hadj hf hv ih => exact ih

theorem RA_congr {gs : GameState} {V V' : Pos → Prop} {p c : Pos}
    (hiff : ∀ t, freeCell gs t → (V t ↔ V' t))
    (h : ReachAvoid gs V p c) : ReachAvoid gs V' p c := by
  induction h with
  | refl hf hv =>
    exact .refl p hf (fun hx => hv ((hiff p hf).mpr hx))
  | tail q r hpq hadj hf hv ih =>
    exact .tail p q r ih hadj hf (fun hx => hv ((hiff r hf).mpr hx))

theorem RA_extend {gs : GameState} {V : Pos → Prop} (z : Pos) {p c : Pos}
    (h : ReachAvoid gs V p c) (hc : ¬ (c = z ∨ V c)) :
    ReachAvoid gs (fun t => t = z ∨ V t) p c ∨
      ∃ n, adjacentPos z n ∧ ReachAvoid gs (fun t => t = z ∨ V t) n c := by
  induction h with
  | refl hf hv =>
    exact Or.inl (.refl p hf hc)
  | tail q r haq hadj hf hv ih =>
    by_cases hqz : q = z
    · subst hqz
      exact Or.inr ⟨r, hadj, .refl r hf hc⟩
    · have hq : ¬ (q = z ∨ V q) := by
        rintro (hh | hh)
        · exact hqz hh
        · exact (RA_dst haq).2 hh
      rcases ih hq with h1 | ⟨n, hn, h2⟩
      · exact Or.inl (.tail p q r h1 hadj hf hc)
      · exact Or.inr ⟨n, hn, .tail n q r h2 hadj hf hc⟩

theorem mem_cells (gs : GameState) (p : Pos) :
    p ∈ cells gs ↔ gs.isInsideGrid p = true := by
  unfold cells
  rw [isInsideGrid_iff]
  simp only [Finset.mem_image, Finset.mem_product, Finset.mem_Icc, Prod.exists]
  constructor
  · rintro ⟨a, b, ⟨⟨ha1, ha2⟩, hb1, hb2⟩, rfl⟩
    simp only
    omega
  · rintro ⟨h1, h2, h3, h4⟩
    refine ⟨p.x, p.y, ⟨⟨h1, by omega⟩, h3, by omega⟩, ?_⟩
    cases p
    rfl

theorem card_cells (gs : GameState) :
    (cells gs).card = gs.gridWidth * gs.gridHeight := by
  unfold cells
  rw [Finset.card_image_of_injective _ (fun a b h => by
    rw [pos_eq_iff] at h
    exact Prod.ext h.1 h.2)]
  rw [Finset.card_product, Int.card_Icc, Int.card_Icc]
  have h1 : ((gs.gridWidth : ℤ) - 1 + 1 - 0).toNat = gs.gridWidth := by omega
  have h2 : ((gs.gridHeight : ℤ) - 1 + 1 - 0).toNat = gs.gridHeight := by omega
  rw [h1, h2]

theorem countFalse_mkVisited (w h : Nat) : countFalse (mkVisited w h) = w * h := by
  unfold countFalse mkVisited
  rw [List.map_replicate, List.sum_replicate, List.count_replicate]
  simp [smul_eq_mul]

theorem reaches_tail {gs : GameState} {s p n : Pos}
    (h : Reaches gs s p) (hadj : adjacentPos p n) (hf : freeCell gs n) :
    Reaches gs s n :=
  ReachAvoid.tail s p n h hadj hf (fun hx => hx)

theorem reaches_refl {gs : GameState} {s : Pos} (hf : freeCell gs s) :
    Reaches gs s s :=
  ReachAvoid.refl s hf (fun hx => hx)

theorem mem_neighborCells {p n : Pos} (hadj : adjacentPos p n) :
    n ∈ neighborCells p := by
  obtain ⟨d, rfl⟩ := hadj
  unfold neighborCells
  rcases direction_cases d with h | h | h | h <;> subst h <;> simp

/-! Flood-fill correctness -/

open Classical in
theorem area_done (gs : GameState) (s : Pos) (v : List (List Bool))
    (hI2 : ∀ t : Pos, gs.isInsideGrid t = true → visGet v t = true → Reaches gs s t)
    (hdone : ∀ c : Pos, Reaches gs s c → visGet v c = true) :
    ((cells gs).filter (fun t => visGet v t = true)).card =
      ((cells gs).filter (fun c => Reaches gs s c)).card := by
  congr 1
  apply Finset.filter_congr
  intro c hc
  exact ⟨hI2 c ((mem_cells gs c).mp hc), hdone c⟩

open Classical in
theorem floodFillAux_card (gs : GameState) (s : Pos) :
    ∀ (fuel : Nat) (q : List Pos) (v : List (List Bool)) (area : Nat),
    q.length + 4 * countFalse v ≤ fuel →
    area = ((cells gs).filter (fun t => visGet v t = true)).card →
    (∀ t : Pos, gs.isInsideGrid t = true → visGet v t = true → Reaches gs s t) →
    (∀ t ∈ q, freeCell gs t → Reaches gs s t) →
    (∀ c : Pos, Reaches gs s c → visGet v c = true ∨
      ∃ t ∈ q, ReachAvoid gs (fun z => visGet v z = true) t c) →
    floodFillAux gs fuel q v area =
      ((cells gs).filter (fun c => Reaches gs s c)).card := by
  intro fuel
  induction fuel with
  | zero =>
    intro q v area hfuel harea hI2 hI4 hI3
    have hq : q = [] := by
      cases q with
      | nil => rfl
      | cons a t => simp at hfuel
    subst hq
    rw [floodFillAux_nil, harea]
    exact area_done gs s v hI2 (fun c hR => by
      rcases hI3 c hR with h | ⟨t, ht, _⟩
      · exact h
      · exact absurd ht (List.not_mem_nil t))
  | succ fuel ih =>
    intro q v area hfuel harea hI2 hI4 hI3
    cases q with
    | nil =>
      rw [floodFillAux_nil, harea]
      exact area_done gs s v hI2 (fun c hR => by
        rcases hI3 c hR with h | ⟨t, ht, _⟩
        · exact h
        · exact absurd ht (List.not_mem_nil t))
    | cons pos rest =>
      simp only [List.length_cons] at hfuel
      by_cases hin : gs.isInsideGrid pos = false
      · have hstep : floodFillAux gs (fuel + 1) (pos :: rest) v area =
            floodFillAux gs fuel rest v area := by
          simp only [floodFillAux]
          rw [if_pos hin]
        rw [hstep]
        refine ih rest v area (by omega) harea hI2
          (fun t ht hf => hI4 t (List.mem_cons_of_mem pos ht) hf) ?_
        intro c hR
        rcases hI3 c hR with h | ⟨t, ht, hRA⟩
        · exact Or.inl h
        · rcases List.mem_cons.mp ht with rfl | ht'
          · exact absurd ((RA_src hRA).1.1) (by simpa using hin)
          · exact Or.inr ⟨t, ht', hRA⟩
      · by_cases hvis : visGet v pos = true
        · have hstep : floodFillAux gs (fuel + 1) (pos :: rest) v area =
              floodFillAux gs fuel rest v area := by
            simp only [floodFillAux]
            rw [if_neg hin, if_pos hvis]
          rw [hstep]
          refine ih rest v area (by omega) harea hI2
            (fun t ht hf => hI4 t (List.mem_cons_of_mem pos ht) hf) ?_
          intro c hR
          rcases hI3 c hR with h | ⟨t, ht, hRA⟩
          · exact Or.inl h
          · rcases List.mem_cons.mp ht with rfl | ht'
            · exact absurd hvis (RA_src hRA).2
            · exact Or.inr ⟨t, ht', hRA⟩
        · by_cases hocc : gs.getGridCell pos ≠ 0
          · have hstep : floodFillAux gs (fuel + 1) (pos :: rest) v area =
                floodFillAux gs fuel rest v area := by
              simp only [floodFillAux]
              rw [if_neg hin, if_neg (by simpa using hvis), if_pos hocc]
            rw [hstep]
            refine ih rest v area (by omega) harea hI2
              (fun t ht hf => hI4 t (List.mem_cons_of_mem pos ht) hf) ?_
            intro c hR
            rcases hI3 c hR with h | ⟨t, ht, hRA⟩
            · exact Or.inl h
            · rcases List.mem_cons.mp ht with rfl | ht'
              · exact absurd ((RA_src hRA).1.2) hocc
              · exact Or.inr ⟨t, ht', hRA⟩
          · have hfree : freeCell gs pos := ⟨by simpa using hin, by simpa using hocc⟩
            have hvisF : visGet v pos = false := by simpa using hvis
            have frame := visGet_visSet v pos hvisF
            have hRpos : Reaches gs s pos := hI4 pos (List.mem_cons_self pos rest) hfree
            have hcf := countFalse_visSet v pos hvisF
            have hstep : floodFillAux gs (fuel + 1) (pos :: rest) v area =
                floodFillAux gs fuel (rest ++ neighborCells pos) (visSet v pos)
                  (area + 1) := by
              simp only [floodFillAux]
              rw [if_neg hin, if_neg (by simpa using hvis), if_neg hocc]
            rw [hstep]
            have hconv : ∀ a b : Pos,
                ReachAvoid gs (fun z => z = pos ∨ visGet v z = true) a b →
                  ReachAvoid gs (fun z => visGet (visSet v pos) z = true) a b := by
              intro a b hab
              apply RA_congr _ hab
              intro z _
              rw [frame z]
              by_cases hzp : z = pos
              · subst hzp
                simp
              · simp [hzp]
            refine ih (rest ++ neighborCells pos) (visSet v pos) (area + 1)
              ?_ ?_ ?_ ?_ ?_
            · have hlen : (neighborCells pos).length = 4 := rfl
              rw [List.length_append, hlen]
              omega
            · have hfilter : (cells gs).filter (fun t => visGet (visSet v pos) t = true) =
                  insert pos ((cells gs).filter (fun t => visGet v t = true)) := by
                ext c
                simp only [Finset.mem_filter, Finset.mem_insert]
                rw [frame c]
                by_cases hc : c = pos
                · subst hc
                  simp [mem_cells, hfree.1]
                · simp [hc]
              rw [hfilter, Finset.card_insert_of_not_mem (by
                simp [Finset.mem_filter, hvisF]), harea]
            · intro t htin htv
              rw [frame t] at htv
              by_cases hc : t = pos
              · subst hc
                exact hRpos
              · rw [if_neg hc] at htv
                exact hI2 t htin htv
            · intro t ht hf
              rcases List.mem_append.mp ht with ht' | ht'
              · exact hI4 t (List.mem_cons_of_mem pos ht') hf
              · have hadj : adjacentPos pos t := by
                  unfold neighborCells at ht'
                  simp only [List.mem_map] at ht'
                  obtain ⟨val, _, rfl⟩ := ht'
                  exact ⟨getDirectionFromValue val, rfl⟩
                exact reaches_tail hRpos hadj hf
            · intro c hR
              by_cases hvc : visGet (visSet v pos) c = true
              · exact Or.inl hvc
              · right
                have hcpos : c ≠ pos := by
                  intro hc
                  subst hc
                  rw [frame c, if_pos rfl] at hvc
                  exact hvc rfl
                have hvcv : ¬ (visGet v c = true) := by
                  intro hx
                  apply hvc
                  rw [frame c, if_neg hcpos]
                  exact hx
                rcases hI3 c hR with h | ⟨t, ht, hRA⟩
                · exact absurd h hvcv
                · have hnc : ¬ (c = pos ∨ visGet v c = true) := by
                    rintro (h | h)
                    · exact hcpos h
                    · exact hvcv h
                  rcases RA_extend pos hRA hnc with h1 | ⟨n, hn, h2⟩
                  · rcases List.mem_cons.mp ht with rfl | ht'
                    · exact absurd (Or.inl rfl) (RA_src h1).2
                    · exact ⟨t, List.mem_append.mpr (Or.inl ht'), hconv _ _ h1⟩
                  · exact ⟨n, List.mem_append.mpr (Or.inr (mem_neighborCells hn)),
                      hconv _ _ h2⟩

open Classical in
theorem floodFill_eq_card (gs : GameState) (s : Pos) :
    floodFill gs s = ((cells gs).filter (fun c => Reaches gs s c)).card := by
  unfold floodFill
  apply floodFillAux_card gs s
  · rw [countFalse_mkVisited]
    unfold floodFillFuel
    simp
  · rw [Finset.filter_false_of_mem, Finset.card_empty]
    intro t ht
    rw [visGet_mkVisited gs t ((mem_cells gs t).mp ht)]
    simp
  · intro t htin htv
    rw [visGet_mkVisited gs t htin] at htv
    simp at htv
  · intro t ht hf
    rcases List.mem_cons.mp ht with rfl | ht'
    · exact reaches_refl hf
    · exact absurd ht' (List.not_mem_nil t)
  · intro c hR
    refine Or.inr ⟨s, List.mem_cons_self s [], ?_⟩
    apply RA_congr _ hR
    intro z hz
    rw [visGet_mkVisited gs z hz.1]
    simp

/-- The explicit step count of the flood-fill embedding is harmless:
any fuel at least the structural bound computes the same answer, so
the embedded loop agrees with the source's unbounded `while` loop. -/
theorem floodFillAux_fuel_irrelevant (gs : GameState) :
    ∀ (n m : Nat) (q : List Pos) (v : List (List Bool)) (area : Nat),
    q.length + 4 * countFalse v ≤ n → n ≤ m →
    floodFillAux gs n q v area = floodFillAux gs m q v area := by
  intro n
  induction n with
  | zero =>
    intro m q v area h1 h2
    have hq : q = [] := by
      cases q with
      | nil => rfl
      | cons a t => simp at h1
    subst hq
    rw [floodFillAux_nil, floodFillAux_nil]
  | succ n ih =>
    intro m q v area h1 h2
    cases q with
    | nil => rw [floodFillAux_nil, floodFillAux_nil]
    | cons pos rest =>
      obtain ⟨m', rfl⟩ : ∃ m', m = m' + 1 := ⟨m - 1, by omega⟩
      simp only [List.length_cons] at h1
      by_cases hin : gs.isInsideGrid pos = false
      · simp only [floodFillAux, if_pos hin]
        exact ih m' rest v area (by omega) (by omega)
      · by_cases hvis : visGet v pos = true
        · simp only [floodFillAux, if_neg hin, if_pos hvis]
          exact ih m' rest v area (by omega) (by omega)
        · by_cases hocc : gs.getGridCell pos ≠ 0
          · simp only [floodFillAux, if_neg hin, if_neg hvis, if_pos hocc]
            exact ih m' rest v area (by omega) (by omega)
          · simp only [floodFillAux, if_neg hin, if_neg hvis, if_neg hocc]
            have hcf := countFalse_visSet v pos (by simpa using hvis)
            refine ih m' (rest ++ neighborCells pos) (visSet v pos) (area + 1) ?_ (by omega)
            have hlen : (neighborCells pos).length = 4 := rfl
            rw [List.length_append, hlen]
            omega

/-! Grid connectivity and isolation -/

theorem reaches_of_free_grid (gs : GameState)
    (hfree : ∀ p ∈ cells gs, gs.getGridCell p = 0) (s : Pos)
    (hs : gs.isInsideGrid s = true) :
    ∀ c : Pos, gs.isInsideGrid c = true → Reaches gs s c := by
  have hfree' : ∀ p : Pos, gs.isInsideGrid p = true → freeCell gs p := fun p hp =>
    ⟨hp, hfree p ((mem_cells gs p).mpr hp)⟩
  obtain ⟨sx0, sxw, sy0, syh⟩ := (isInsideGrid_iff gs s).mp hs
  suffices H : ∀ n : Nat, ∀ c : Pos, gs.isInsideGrid c = true →
      (c.x - s.x).natAbs + (c.y - s.y).natAbs = n → Reaches gs s c by
    intro c hc
    exact H _ c hc rfl
  intro n
  induction n using Nat.strong_induction_on with
  | _ n ih =>
    intro c hc hn
    obtain ⟨hx0, hxw, hy0, hyh⟩ := (isInsideGrid_iff gs c).mp hc
    by_cases hcs : c = s
    · subst hcs
      exact reaches_refl (hfree' c hc)
    · rcases lt_trichotomy c.x s.x with hlt | heq | hgt
      · have hbin : gs.isInsideGrid ⟨c.x + 1, c.y⟩ = true := by
          rw [isInsideGrid_iff]
          simp only
          omega
        have hR : Reaches gs s ⟨c.x + 1, c.y⟩ :=
          ih (((⟨c.x + 1, c.y⟩ : Pos).x - s.x).natAbs +
            ((⟨c.x + 1, c.y⟩ : Pos).y - s.y).natAbs) (by simp only; omega) _ hbin rfl
        refine reaches_tail hR ⟨.left, ?_⟩ (hfree' c hc)
        rw [pos_eq_iff]
        simp [Pos.add_def, getDirectionVector]
      · rcases lt_trichotomy c.y s.y with hylt | hyeq | hygt
        · have hbin : gs.isInsideGrid ⟨c.x, c.y + 1⟩ = true := by
            rw [isInsideGrid_iff]
            simp only
            omega
          have hR : Reaches gs s ⟨c.x, c.y + 1⟩ :=
            ih (((⟨c.x, c.y + 1⟩ : Pos).x - s.x).natAbs +
              ((⟨c.x, c.y + 1⟩ : Pos).y - s.y).natAbs) (by simp only; omega) _ hbin rfl
          refine reaches_tail hR ⟨.up, ?_⟩ (hfree' c hc)
          rw [pos_eq_iff]
          simp [Pos.add_def, getDirectionVector]
        · exact absurd ((pos_eq_iff c s).mpr ⟨heq, hyeq⟩) hcs
        · have hbin : gs.isInsideGrid ⟨c.x, c.y - 1⟩ = true := by
            rw [isInsideGrid_iff]
            simp only
            omega
          have hR : Reaches gs s ⟨c.x, c.y - 1⟩ :=
            ih (((⟨c.x, c.y - 1⟩ : Pos).x - s.x).natAbs +
              ((⟨c.x, c.y - 1⟩ : Pos).y - s.y).natAbs) (by simp only; omega) _ hbin rfl
          refine reaches_tail hR ⟨.down, ?_⟩ (hfree' c hc)
          rw [pos_eq_iff]
          simp [Pos.add_def, getDirectionVector]
      · have hbin : gs.isInsideGrid ⟨c.x - 1, c.y⟩ = true := by
          rw [isInsideGrid_iff]
          simp only
          omega
        have hR : Reaches gs s ⟨c.x - 1, c.y⟩ :=
          ih (((⟨c.x - 1, c.y⟩ : Pos).x - s.x).natAbs +
            ((⟨c.x - 1, c.y⟩ : Pos).y - s.y).natAbs) (by simp only; omega) _ hbin rfl
        refine reaches_tail hR ⟨.right, ?_⟩ (hfree' c hc)
        rw [pos_eq_iff]
        simp [Pos.add_def, getDirectionVector]

theorem reaches_isolated (gs : GameState) (s : Pos)
    (hiso : ∀ d : Direction, ¬ freeCell gs (s + getDirectionVector d)) :
    ∀ c : Pos, Reaches gs s c → c = s := by
  intro c hR
  have hR' : ReachAvoid gs (fun _ => False) s c := hR
  induction hR' with
  | refl hf hv => rfl
  | tail q r hpq hadj hf hv ih =>
    rw [ih hpq] at hadj
    obtain ⟨d, rfl⟩ := hadj
    exact absurd hf (hiso d)

/-! C4: flood fill counts exactly the reachable free cells -/

open Classical in
/-- C4: `floodFill` returns the number of free cells reachable from
the start through orthogonally adjacent free cells, counting each
exactly once and including the start itself (so it never counts a
blocked or out-of-bounds cell); on a fully free grid from an
in-bounds cell it equals width times height, and for a free cell all
of whose neighbours are blocked or out of bounds it equals 1. -/
theorem c4_reachable_area (gs : GameState) (s : Pos) :
    floodFill gs s = ((cells gs).filter (fun c => Reaches gs s c)).card ∧
    ((∀ p ∈ cells gs, gs.getGridCell p = 0) → gs.isInsideGrid s = true →
      floodFill gs s = gs.gridWidth * gs.gridHeight) ∧
    ((freeCell gs s ∧ ∀ d : Direction, ¬ freeCell gs (s + getDirectionVector d)) →
      floodFill gs s = 1) := by
  refine ⟨floodFill_eq_card gs s, ?_, ?_⟩
  · intro hfree hs
    rw [floodFill_eq_card gs s,
      Finset.filter_true_of_mem
        (fun c hc => reaches_of_free_grid gs hfree s hs c ((mem_cells gs c).mp hc))]
    exact card_cells gs
  · rintro ⟨hsfree, hiso⟩
    rw [floodFill_eq_card gs s]
    have hsingle : (cells gs).filter (fun c => Reaches gs s c) = {s} := by
      ext c
      simp only [Finset.mem_filter, Finset.mem_singleton]
      constructor
      · rintro ⟨_, hR⟩
        exact reaches_isolated gs s hiso c hR
      · rintro rfl
        exact ⟨(mem_cells _ _).mpr hsfree.1, reaches_refl hsfree⟩
    rw [hsingle]
    rfl

/-- Witness for C4: the open 3 by 3 grid has area 9 from the corner,
and the isolated centre of the blocked ring has area 1. -/
theorem c4_witness :
    ((∀ p ∈ cells exOpen, exOpen.getGridCell p = 0) ∧
      exOpen.isInsideGrid ⟨0, 0⟩ = true ∧
      floodFill exOpen ⟨0, 0⟩ = exOpen.gridWidth * exOpen.gridHeight) ∧
    ((freeCell exIso ⟨1, 1⟩ ∧
        ∀ d : Direction, ¬ freeCell exIso ((⟨1, 1⟩ : Pos) + getDirectionVector d)) ∧
      floodFill exIso ⟨1, 1⟩ = 1) :=
  ⟨⟨by decide, by decide,
      (c4_reachable_area exOpen ⟨0, 0⟩).2.1 (by decide) (by decide)⟩,
    ⟨⟨by decide, by decide⟩,
      (c4_reachable_area exIso ⟨1, 1⟩).2.2 ⟨by decide, by decide⟩⟩⟩

/-! C3: the evaluation function -/

open Classical in
/-- C3: `evaluate` equals the reachable area from self's position
minus the reachable area from the opponent's position, where the two
players are the engine's member players the evaluation consults. -/
theorem c3_evaluate_reachable (mp op : Player) (gs : GameState) :
    evaluate mp op gs =
      (((cells gs).filter (fun c => Reaches gs mp.position c)).card : Int) -
        (((cells gs).filter (fun c => Reaches gs op.position c)).card : Int) := by
  unfold evaluate
  rw [floodFill_eq_card, floodFill_eq_card]

/-! C1: the search drops the updated player position -/

/-- C1: on the free 3 by 1 corridor with self at (0,0) and opponent
at (2,0), the maximizing layer at depth 1 tries the only legal move
Right: the destination cell (1,0) is blocked in the private copy and
the player copy's position becomes (1,0), but the value returned by
the search equals the evaluation at the ORIGINAL position (0,0)
(namely 0), and differs from the evaluation at the updated position
(1,0) (namely -1): the recursive call does not see the updated
player position, because the updated player copy is discarded. -/
theorem c1_stale_position :
    minimax exCorridorSelf exCorridorOpp exCorridor 1 true INT_MIN INT_MAX =
      evaluate exCorridorSelf exCorridorOpp
        (movePlayer exCorridor exCorridorSelf Direction.right).1 ∧
    (movePlayer exCorridor exCorridorSelf Direction.right).1.getGridCell ⟨1, 0⟩ = 1 ∧
    (movePlayer exCorridor exCorridorSelf Direction.right).2.position = ⟨1, 0⟩ ∧
    (∀ d : Direction, is_valid_move exCorridor exCorridorSelf d = true ↔ d = Direction.right) ∧
    evaluate exCorridorSelf exCorridorOpp
      (movePlayer exCorridor exCorridorSelf Direction.right).1 = 0 ∧
    evaluate ⟨exCorridorSelf.name, ⟨1, 0⟩⟩ exCorridorOpp
      (movePlayer exCorridor exCorridorSelf Direction.right).1 = -1 := by
  refine ⟨?_, ?_, ?_, ?_, ?_, ?_⟩ <;> decide

/-! C7: tie-break and the sentinel initial score -/

/-- Counterexample to C7: in the trap state, self's only legal
direction is Down, so the first (and only) direction attaining the
maximal score over legal directions is Down; yet `decideMove` returns
Up, which is not even legal, because every legal direction's search
score equals the sentinel `INT_MIN` and `score > bestScore` never
fires. -/
theorem c7_counterexample :
    decideMove exTrapSelf exTrapOpp exTrap = Direction.up ∧
    is_valid_move exTrap exTrapSelf Direction.up = false ∧
    is_valid_move exTrap exTrapSelf Direction.down = true ∧
    is_valid_move exTrap exTrapSelf Direction.left = false ∧
    is_valid_move exTrap exTrapSelf Direction.right = false ∧
    dirScore exTrapSelf exTrapOpp exTrap Direction.down =
      maxLegalScore exTrapSelf exTrapOpp exTrap := by
  refine ⟨?_, ?_, ?_, ?_, ?_, ?_⟩ <;> decide

theorem scoresFoldFrom_nil (mp op : Player) (gs : GameState) (bs : Int) :
    scoresFoldFrom mp op gs [] bs = bs := rfl

theorem scoresFoldFrom_cons_valid (mp op : Player) (gs : GameState) (v : Nat)
    (rest : List Nat) (bs : Int)
    (h : is_valid_move gs mp (getDirectionFromValue v) = true) :
    scoresFoldFrom mp op gs (v :: rest) bs =
      scoresFoldFrom mp op gs rest
        (max bs (dirScore mp op gs (getDirectionFromValue v))) := by
  unfold scoresFoldFrom
  simp [h]

theorem scoresFoldFrom_cons_invalid (mp op : Player) (gs : GameState) (v : Nat)
    (rest : List Nat) (bs : Int)
    (h : is_valid_move gs mp (getDirectionFromValue v) = false) :
    scoresFoldFrom mp op gs (v :: rest) bs = scoresFoldFrom mp op gs rest bs := by
  unfold scoresFoldFrom
  simp [h]

theorem le_scoresFoldFrom (mp op : Player) (gs : GameState) :
    ∀ (l : List Nat) (bs : Int), bs ≤ scoresFoldFrom mp op gs l bs := by
  intro l
  induction l with
  | nil => intro bs; exact le_refl bs
  | cons v rest ih =>
    intro bs
    by_cases hv : is_valid_move gs mp (getDirectionFromValue v) = true
    · rw [scoresFoldFrom_cons_valid mp op gs v rest bs hv]
      exact le_trans (le_max_left _ _) (ih _)
    · rw [scoresFoldFrom_cons_invalid mp op gs v rest bs (by simpa using hv)]
      exact ih bs

theorem dirScore_le_scoresFoldFrom (mp op : Player) (gs : GameState) :
    ∀ (l : List Nat) (bs : Int) (d : Direction),
    d ∈ (l.map getDirectionFromValue).filter (fun d => is_valid_move gs mp d) →
    dirScore mp op gs d ≤ scoresFoldFrom mp op gs l bs := by
  intro l
  induction l with
  | nil =>
    intro bs d hd
    simp at hd
  | cons v rest ih =>
    intro bs d hd
    by_cases hv : is_valid_move gs mp (getDirectionFromValue v) = true
    · rw [List.map_cons, List.filter_cons_of_pos hv] at hd
      rw [scoresFoldFrom_cons_valid mp op gs v rest bs hv]
      rcases List.mem_cons.mp hd with rfl | hd'
      · exact le_trans (le_max_right _ _) (le_scoresFoldFrom mp op gs rest _)
      · exact ih _ d hd'
    · rw [List.map_cons, List.filter_cons_of_neg (by simpa using hv)] at hd
      rw [scoresFoldFrom_cons_invalid mp op gs v rest bs (by simpa using hv)]
      exact ih bs d hd

theorem decideLoop_stay (mp op : Player) (gs : GameState) :
    ∀ (l : List Nat) (bs : Int) (bm : Direction),
    (∀ d ∈ (l.map getDirectionFromValue).filter (fun d => is_valid_move gs mp d),
      dirScore mp op gs d ≤ bs) →
    decideLoop mp op gs l bs bm = bm := by
  intro l
  induction l with
  | nil => intro bs bm _; rfl
  | cons v rest ih =>
    intro bs bm h
    by_cases hv : is_valid_move gs mp (getDirectionFromValue v) = true
    · have hmem : getDirectionFromValue v ∈
          ((v :: rest).map getDirectionFromValue).filter
            (fun d => is_valid_move gs mp d) := by
        rw [List.map_cons, List.filter_cons_of_pos hv]
        exact List.mem_cons_self _ _
      have hle : dirScore mp op gs (getDirectionFromValue v) ≤ bs := h _ hmem
      simp only [decideLoop, if_pos hv]
      rw [show minimax mp op (movePlayer gs mp (getDirectionFromValue v)).1 (MAX_DEPTH - 1) false INT_MIN INT_MAX = dirScore mp op gs (getDirectionFromValue v) from rfl]
      rw [if_neg (not_lt.mpr hle)]
      refine ih bs bm (fun d hd => h d ?_)
      rw [List.map_cons, List.filter_cons_of_pos hv]
      exact List.mem_cons_of_mem _ hd
    · simp only [decideLoop, if_neg hv]
      refine ih bs bm (fun d hd => h d ?_)
      rw [List.map_cons, List.filter_cons_of_neg (by simpa using hv)]
      exact hd

theorem decideLoop_find (mp op : Player) (gs : GameState) :
    ∀ (l : List Nat) (bs : Int) (bm : Direction),
    bs < scoresFoldFrom mp op gs l bs →
    (l.map getDirectionFromValue).find? (fun d => is_valid_move gs mp d &&
      (dirScore mp op gs d == scoresFoldFrom mp op gs l bs)) =
      some (decideLoop mp op gs l bs bm) := by
  intro l
  induction l with
  | nil =>
    intro bs bm h
    rw [scoresFoldFrom_nil] at h
    exact absurd h (lt_irrefl bs)
  | cons v rest ih =>
    intro bs bm h
    by_cases hv : is_valid_move gs mp (getDirectionFromValue v) = true
    · have hcons := scoresFoldFrom_cons_valid mp op gs v rest bs hv
      by_cases hbs : bs < dirScore mp op gs (getDirectionFromValue v)
      · have hmax : max bs (dirScore mp op gs (getDirectionFromValue v)) =
            dirScore mp op gs (getDirectionFromValue v) := max_eq_right (le_of_lt hbs)
        have hstep : decideLoop mp op gs (v :: rest) bs bm =
            decideLoop mp op gs rest (dirScore mp op gs (getDirectionFromValue v))
              (getDirectionFromValue v) := by
          simp only [decideLoop, if_pos hv]
          rw [show minimax mp op (movePlayer gs mp (getDirectionFromValue v)).1 (MAX_DEPTH - 1) false INT_MIN INT_MAX = dirScore mp op gs (getDirectionFromValue v) from rfl]
          rw [if_pos hbs]
        by_cases hM : scoresFoldFrom mp op gs rest
            (dirScore mp op gs (getDirectionFromValue v)) =
            dirScore mp op gs (getDirectionFromValue v)
        · have hfold : scoresFoldFrom mp op gs (v :: rest) bs =
              dirScore mp op gs (getDirectionFromValue v) := by
            rw [hcons, hmax, hM]
          rw [List.map_cons, List.find?_cons_of_pos _ (by
            simp [hv, hfold])]
          rw [hstep, decideLoop_stay mp op gs rest _ _ (fun d hd => by
            have := dirScore_le_scoresFoldFrom mp op gs rest
              (dirScore mp op gs (getDirectionFromValue v)) d hd
            omega)]
        · have hlt : dirScore mp op gs (getDirectionFromValue v) <
              scoresFoldFrom mp op gs rest
                (dirScore mp op gs (getDirectionFromValue v)) :=
            lt_of_le_of_ne (le_scoresFoldFrom mp op gs rest _) (fun heq => hM heq.symm)
          have hfold : scoresFoldFrom mp op gs (v :: rest) bs =
              scoresFoldFrom mp op gs rest
                (dirScore mp op gs (getDirectionFromValue v)) := by
            rw [hcons, hmax]
          rw [List.map_cons, List.find?_cons_of_neg _ (by
            simp only [hv, Bool.true_and, hfold]
            simp [beq_iff_eq]
            omega)]
          rw [hstep, hfold]
          exact ih _ (getDirectionFromValue v) hlt
      · have hmax : max bs (dirScore mp op gs (getDirectionFromValue v)) = bs :=
          max_eq_left (not_lt.mp hbs)
        have hfold : scoresFoldFrom mp op gs (v :: rest) bs =
            scoresFoldFrom mp op gs rest bs := by
          rw [hcons, hmax]
        have hstep : decideLoop mp op gs (v :: rest) bs bm =
            decideLoop mp op gs rest bs bm := by
          simp only [decideLoop, if_pos hv]
          rw [show minimax mp op (movePlayer gs mp (getDirectionFromValue v)).1 (MAX_DEPTH - 1) false INT_MIN INT_MAX = dirScore mp op gs (getDirectionFromValue v) from rfl]
          rw [if_neg hbs]
        rw [List.map_cons, List.find?_cons_of_neg _ (by
          simp only [hv, Bool.true_and, hfold]
          simp [beq_iff_eq]
          rw [hfold] at h
          omega)]
        rw [hstep, hfold]
        exact ih bs bm (hfold ▸ h)
    · have hfold := scoresFoldFrom_cons_invalid mp op gs v rest bs (by simpa using hv)
      have hstep : decideLoop mp op gs (v :: rest) bs bm =
          decideLoop mp op gs rest bs bm := by
        simp only [decideLoop, if_neg hv]
      rw [List.map_cons, List.find?_cons_of_neg _ (by simp [hv]), hstep, hfold]
      exact ih bs bm (hfold ▸ h)

/-- C7 amended: when some legal direction's search score strictly
exceeds the sentinel initial best score `INT_MIN`, `decideMove`
returns the first direction in canonical order whose score attains
the maximum over all legal directions (strict improvement means later
equal scores never override an earlier choice, and the pure function
is trivially reproducible on the same input).  When every legal score
equals `INT_MIN` the default direction is returned instead (see the
counterexample). -/
theorem c7_amended_first_max (mp op : Player) (gs : GameState)
    (h : INT_MIN < maxLegalScore mp op gs) :
    canonDirs.find? (fun d => is_valid_move gs mp d &&
      (dirScore mp op gs d == maxLegalScore mp op gs)) =
      some (decideMove mp op gs) := by
  have hMax : maxLegalScore mp op gs = scoresFoldFrom mp op gs [0, 1, 2, 3] INT_MIN := rfl
  rw [show canonDirs = [0, 1, 2, 3].map getDirectionFromValue from rfl, hMax]
  exact decideLoop_find mp op gs [0, 1, 2, 3] INT_MIN Direction.up (hMax ▸ h)

/-- Witness for the amended C7 on the open 3 by 3 grid: the score of
some legal direction beats the sentinel, and the decision is the
first max-scoring legal direction. -/
theorem c7_amended_witness :
    (INT_MIN < maxLegalScore exOpenSelf exOpenOpp exOpen) ∧
      canonDirs.find? (fun d => is_valid_move exOpen exOpenSelf d &&
        (dirScore exOpenSelf exOpenOpp exOpen d ==
          maxLegalScore exOpenSelf exOpenOpp exOpen)) =
        some (decideMove exOpenSelf exOpenOpp exOpen) :=
  ⟨by decide, c7_amended_first_max exOpenSelf exOpenOpp exOpen (by decide)⟩

/-! C2: alpha-beta pruning never changes the search value -/

theorem INT_MIN_lt_INT_MAX : INT_MIN < INT_MAX := by
  norm_num [INT_MIN, INT_MAX]

theorem movePlayer_dims (gs : GameState) (pl : Player) (dir : Direction) :
    ((movePlayer gs pl dir).1).gridWidth = gs.gridWidth ∧
      ((movePlayer gs pl dir).1).gridHeight = gs.gridHeight :=
  ⟨setGridCell_gridWidth _ _ _, setGridCell_gridHeight _ _ _⟩

open Classical in
theorem floodFill_le (gs : GameState) (p : Pos) :
    floodFill gs p ≤ gs.gridWidth * gs.gridHeight := by
  rw [floodFill_eq_card]
  calc ((cells gs).filter (fun c => Reaches gs p c)).card
      ≤ (cells gs).card := Finset.card_filter_le _ _
    _ = gs.gridWidth * gs.gridHeight := card_cells gs

theorem evaluate_bounds (mp op : Player) (gs : GameState)
    (hdim : gs.gridWidth * gs.gridHeight ≤ 2 ^ 31 - 1) :
    INT_MIN ≤ evaluate mp op gs ∧ evaluate mp op gs ≤ INT_MAX := by
  have h1 := floodFill_le gs mp.position
  have h2 := floodFill_le gs op.position
  have e1 : INT_MIN = -2147483648 := by norm_num [INT_MIN]
  have e2 : INT_MAX = 2147483647 := by norm_num [INT_MAX]
  have e3 : (2 : Nat) ^ 31 - 1 = 2147483647 := by norm_num
  rw [e3] at hdim
  simp only [evaluate, e1, e2]
  omega

/-! Step equations for the four loops. -/

theorem abMaxLoop_cons_valid (mp : Player) (gs : GameState)
    (f : GameState → Int → Int → Int) (v : Nat) (rest : List Nat) (m a b : Int)
    (hv : is_valid_move gs mp (getDirectionFromValue v) = true) :
    abMaxLoop mp gs f (v :: rest) m a b =
      if b ≤ max a (f (movePlayer gs mp (getDirectionFromValue v)).1 a b) then
        max m (f (movePlayer gs mp (getDirectionFromValue v)).1 a b)
      else
        abMaxLoop mp gs f rest
          (max m (f (movePlayer gs mp (getDirectionFromValue v)).1 a b))
          (max a (f (movePlayer gs mp (getDirectionFromValue v)).1 a b)) b := by
  simp only [abMaxLoop, if_pos hv]

theorem abMaxLoop_cons_invalid (mp : Player) (gs : GameState)
    (f : GameState → Int → Int → Int) (v : Nat) (rest : List Nat) (m a b : Int)
    (hv : ¬ is_valid_move gs mp (getDirectionFromValue v) = true) :
    abMaxLoop mp gs f (v :: rest) m a b = abMaxLoop mp gs f rest m a b := by
  simp only [abMaxLoop, if_neg hv]

theorem abMinLoop_cons_valid (op : Player) (gs : GameState)
    (f : GameState → Int → Int → Int) (v : Nat) (rest : List Nat) (m a b : Int)
    (hv : is_valid_move gs op (getDirectionFromValue v) = true) :
    abMinLoop op gs f (v :: rest) m a b =
      if min b (f (movePlayer gs op (getDirectionFromValue v)).1 a b) ≤ a then
        min m (f (movePlayer gs op (getDirectionFromValue v)).1 a b)
      else
        abMinLoop op gs f rest
          (min m (f (movePlayer gs op (getDirectionFromValue v)).1 a b)) a
          (min b (f (movePlayer gs op (getDirectionFromValue v)).1 a b)) := by
  simp only [abMinLoop, if_pos hv]

theorem abMinLoop_cons_invalid (op : Player) (gs : GameState)
    (f : GameState → Int → Int → Int) (v : Nat) (rest : List Nat) (m a b : Int)
    (hv : ¬ is_valid_move gs op (getDirectionFromValue v) = true) :
    abMinLoop op gs f (v :: rest) m a b = abMinLoop op gs f rest m a b := by
  simp only [abMinLoop, if_neg hv]

theorem plainMaxLoop_cons_valid (mp : Player) (gs : GameState) (pf : GameState → Int)
    (v : Nat) (rest : List Nat) (acc : Int)
    (hv : is_valid_move gs mp (getDirectionFromValue v) = true) :
    plainMaxLoop mp gs pf (v :: rest) acc =
      plainMaxLoop mp gs pf rest
        (max acc (pf (movePlayer gs mp (getDirectionFromValue v)).1)) := by
  simp only [plainMaxLoop, if_pos hv]

theorem plainMaxLoop_cons_invalid (mp : Player) (gs : GameState) (pf : GameState → Int)
    (v : Nat) (rest : List Nat) (acc : Int)
    (hv : ¬ is_valid_move gs mp (getDirectionFromValue v) = true) :
    plainMaxLoop mp gs pf (v :: rest) acc = plainMaxLoop mp gs pf rest acc := by
  simp only [plainMaxLoop, if_neg hv]

theorem plainMinLoop_cons_valid (op : Player) (gs : GameState) (pf : GameState → Int)
    (v : Nat) (rest : List Nat) (acc : Int)
    (hv : is_valid_move gs op (getDirectionFromValue v) = true) :
    plainMinLoop op gs pf (v :: rest) acc =
      plainMinLoop op gs pf rest
        (min acc (pf (movePlayer gs op (getDirectionFromValue v)).1)) := by
  simp only [plainMinLoop, if_pos hv]

theorem plainMinLoop_cons_invalid (op : Player) (gs : GameState) (pf : GameState → Int)
    (v : Nat) (rest : List Nat) (acc : Int)
    (hv : ¬ is_valid_move gs op (getDirectionFromValue v) = true) :
    plainMinLoop op gs pf (v :: rest) acc = plainMinLoop op gs pf rest acc := by
  simp only [plainMinLoop, if_neg hv]

/-! Accumulator facts for the plain folds. -/

theorem plainMaxLoop_acc_le (mp : Player) (gs : GameState) (pf : GameState → Int) :
    ∀ (l : List Nat) (acc : Int), acc ≤ plainMaxLoop mp gs pf l acc := by
  intro l
  induction l with
  | nil => intro acc; exact le_refl acc
  | cons v rest ih =>
    intro acc
    by_cases hv : is_valid_move gs mp (getDirectionFromValue v) = true
    · rw [plainMaxLoop_cons_valid mp gs pf v rest acc hv]
      exact le_trans (le_max_left _ _) (ih _)
    · rw [plainMaxLoop_cons_invalid mp gs pf v rest acc hv]
      exact ih acc

theorem plainMaxLoop_mono (mp : Player) (gs : GameState) (pf : GameState → Int) :
    ∀ (l : List Nat) (a1 a2 : Int), a1 ≤ a2 →
      plainMaxLoop mp gs pf l a1 ≤ plainMaxLoop mp gs pf l a2 := by
  intro l
  induction l with
  | nil => intro a1 a2 h; exact h
  | cons v rest ih =>
    intro a1 a2 h
    by_cases hv : is_valid_move gs mp (getDirectionFromValue v) = true
    · rw [plainMaxLoop_cons_valid mp gs pf v rest a1 hv,
        plainMaxLoop_cons_valid mp gs pf v rest a2 hv]
      exact ih _ _ (max_le_max h (le_refl _))
    · rw [plainMaxLoop_cons_invalid mp gs pf v rest a1 hv,
        plainMaxLoop_cons_invalid mp gs pf v rest a2 hv]
      exact ih _ _ h

theorem plainMaxLoop_max_comm (mp : Player) (gs : GameState) (pf : GameState → Int) :
    ∀ (l : List Nat) (acc e : Int),
      plainMaxLoop mp gs pf l (max acc e) = max (plainMaxLoop mp gs pf l acc) e := by
  intro l
  induction l with
  | nil => intro acc e; rfl
  | cons v rest ih =>
    intro acc e
    by_cases hv : is_valid_move gs mp (getDirectionFromValue v) = true
    · rw [plainMaxLoop_cons_valid mp gs pf v rest _ hv,
        plainMaxLoop_cons_valid mp gs pf v rest acc hv,
        sup_right_comm acc e (pf (movePlayer gs mp (getDirectionFromValue v)).1)]
      exact ih _ e
    · rw [plainMaxLoop_cons_invalid mp gs pf v rest _ hv,
        plainMaxLoop_cons_invalid mp gs pf v rest acc hv]
      exact ih acc e

theorem plainMaxLoop_le (mp : Player) (gs : GameState) (pf : GameState → Int)
    (C : Int) :
    ∀ (l : List Nat) (acc : Int), acc ≤ C →
    (∀ v ∈ l, is_valid_move gs mp (getDirectionFromValue v) = true →
      pf (movePlayer gs mp (getDirectionFromValue v)).1 ≤ C) →
    plainMaxLoop mp gs pf l acc ≤ C := by
  intro l
  induction l with
  | nil => intro acc hacc _; exact hacc
  | cons v rest ih =>
    intro acc hacc hch
    by_cases hv : is_valid_move gs mp (getDirectionFromValue v) = true
    · rw [plainMaxLoop_cons_valid mp gs pf v rest acc hv]
      exact ih _ (max_le hacc (hch v (List.mem_cons_self v rest) hv))
        (fun w hw hwv => hch w (List.mem_cons_of_mem v hw) hwv)
    · rw [plainMaxLoop_cons_invalid mp gs pf v rest acc hv]
      exact ih acc hacc (fun w hw hwv => hch w (List.mem_cons_of_mem v hw) hwv)

theorem plainMinLoop_le_acc (op : Player) (gs : GameState) (pf : GameState → Int) :
    ∀ (l : List Nat) (acc : Int), plainMinLoop op gs pf l acc ≤ acc := by
  intro l
  induction l with
  | nil => intro acc; exact le_refl acc
  | cons v rest ih =>
    intro acc
    by_cases hv : is_valid_move gs op (getDirectionFromValue v) = true
    · rw [plainMinLoop_cons_valid op gs pf v rest acc hv]
      exact le_trans (ih _) (min_le_left _ _)
    · rw [plainMinLoop_cons_invalid op gs pf v rest acc hv]
      exact ih acc

theorem plainMinLoop_mono (op : Player) (gs : GameState) (pf : GameState → Int) :
    ∀ (l : List Nat) (a1 a2 : Int), a1 ≤ a2 →
      plainMinLoop op gs pf l a1 ≤ plainMinLoop op gs pf l a2 := by
  intro l
  induction l with
  | nil => intro a1 a2 h; exact h
  | cons v rest ih =>
    intro a1 a2 h
    by_cases hv : is_valid_move gs op (getDirectionFromValue v) = true
    · rw [plainMinLoop_cons_valid op gs pf v rest a1 hv,
        plainMinLoop_cons_valid op gs pf v rest a2 hv]
      exact ih _ _ (min_le_min h (le_refl _))
    · rw [plainMinLoop_cons_invalid op gs pf v rest a1 hv,
        plainMinLoop_cons_invalid op gs pf v rest a2 hv]
      exact ih _ _ h

theorem plainMinLoop_min_comm (op : Player) (gs : GameState) (pf : GameState → Int) :
    ∀ (l : List Nat) (acc e : Int),
      plainMinLoop op gs pf l (min acc e) = min (plainMinLoop op gs pf l acc) e := by
  intro l
  induction l with
  | nil => intro acc e; rfl
  | cons v rest ih =>
    intro acc e
    by_cases hv : is_valid_move gs op (getDirectionFromValue v) = true
    · rw [plainMinLoop_cons_valid op gs pf v rest _ hv,
        plainMinLoop_cons_valid op gs pf v rest acc hv,
        inf_right_comm acc e (pf (movePlayer gs op (getDirectionFromValue v)).1)]
      exact ih _ e
    · rw [plainMinLoop_cons_invalid op gs pf v rest _ hv,
        plainMinLoop_cons_invalid op gs pf v rest acc hv]
      exact ih acc e

theorem plainMinLoop_ge (op : Player) (gs : GameState) (pf : GameState → Int)
    (C : Int) :
    ∀ (l : List Nat) (acc : Int), C ≤ acc →
    (∀ v ∈ l, is_valid_move gs op (getDirectionFromValue v) = true →
      C ≤ pf (movePlayer gs op (getDirectionFromValue v)).1) →
    C ≤ plainMinLoop op gs pf l acc := by
  intro l
  induction l with
  | nil => intro acc hacc _; exact hacc
  | cons v rest ih =>
    intro acc hacc hch
    by_cases hv : is_valid_move gs op (getDirectionFromValue v) = true
    · rw [plainMinLoop_cons_valid op gs pf v rest acc hv]
      exact ih _ (le_min hacc (hch v (List.mem_cons_self v rest) hv))
        (fun w hw hwv => hch w (List.mem_cons_of_mem v hw) hwv)
    · rw [plainMinLoop_cons_invalid op gs pf v rest acc hv]
      exact ih acc hacc (fun w hw hwv => hch w (List.mem_cons_of_mem v hw) hwv)

/-! Unfolding equations for the two searches at positive depth. -/

theorem minimax_game_over (mp op : Player) (gs : GameState) (depth : Nat)
    (maxim : Bool) (a b : Int) (hgo : game_over mp op gs = true) :
    minimax mp op gs (depth + 1) maxim a b = evaluate mp op gs := by
  simp only [minimax, if_pos hgo]

theorem minimax_succ_max (mp op : Player) (gs : GameState) (depth : Nat) (a b : Int)
    (hgo : ¬ game_over mp op gs = true) :
    minimax mp op gs (depth + 1) true a b =
      abMaxLoop mp gs (fun g al be => minimax mp op g depth false al be)
        [0, 1, 2, 3] INT_MIN a b := by
  simp only [minimax, if_neg hgo]
  rw [if_pos trivial]

theorem minimax_succ_min (mp op : Player) (gs : GameState) (depth : Nat) (a b : Int)
    (hgo : ¬ game_over mp op gs = true) :
    minimax mp op gs (depth + 1) false a b =
      abMinLoop op gs (fun g al be => minimax mp op g depth true al be)
        [0, 1, 2, 3] INT_MAX a b := by
  simp only [minimax, if_neg hgo]
  rw [if_neg (by simp)]

theorem minimaxPlain_game_over (mp op : Player) (gs : GameState) (depth : Nat)
    (maxim : Bool) (hgo : game_over mp op gs = true) :
    minimaxPlain mp op gs (depth + 1) maxim = evaluate mp op gs := by
  simp only [minimaxPlain, if_pos hgo]

theorem minimaxPlain_succ_max (mp op : Player) (gs : GameState) (depth : Nat)
    (hgo : ¬ game_over mp op gs = true) :
    minimaxPlain mp op gs (depth + 1) true =
      plainMaxLoop mp gs (fun g => minimaxPlain mp op g depth false)
        [0, 1, 2, 3] INT_MIN := by
  simp only [minimaxPlain, if_neg hgo]
  rw [if_pos trivial]

theorem minimaxPlain_succ_min (mp op : Player) (gs : GameState) (depth : Nat)
    (hgo : ¬ game_over mp op gs = true) :
    minimaxPlain mp op gs (depth + 1) false =
      plainMinLoop op gs (fun g => minimaxPlain mp op g depth true)
        [0, 1, 2, 3] INT_MAX := by
  simp only [minimaxPlain, if_neg hgo]
  rw [if_neg (by simp)]

theorem minimaxPlain_bounds (mp op : Player) :
    ∀ (depth : Nat) (gs : GameState) (maxim : Bool),
    gs.gridWidth * gs.gridHeight ≤ 2 ^ 31 - 1 →
    INT_MIN ≤ minimaxPlain mp op gs depth maxim ∧
      minimaxPlain mp op gs depth maxim ≤ INT_MAX := by
  intro depth
  induction depth with
  | zero =>
    intro gs maxim hdim
    exact evaluate_bounds mp op gs hdim
  | succ depth ih =>
    intro gs maxim hdim
    by_cases hgo : game_over mp op gs = true
    · rw [minimaxPlain_game_over mp op gs depth maxim hgo]
      exact evaluate_bounds mp op gs hdim
    · have hchdim : ∀ (pl : Player) (d : Direction),
          ((movePlayer gs pl d).1).gridWidth * ((movePlayer gs pl d).1).gridHeight ≤
            2 ^ 31 - 1 := by
        intro pl d
        rw [(movePlayer_dims gs pl d).1, (movePlayer_dims gs pl d).2]
        exact hdim
      cases maxim with
      | true =>
        rw [minimaxPlain_succ_max mp op gs depth hgo]
        constructor
        · exact le_trans (le_refl INT_MIN) (plainMaxLoop_acc_le mp gs _ _ _)
        · exact plainMaxLoop_le mp gs _ INT_MAX [0, 1, 2, 3] INT_MIN
            (le_of_lt INT_MIN_lt_INT_MAX)
            (fun v _ _ => (ih _ false (hchdim mp _)).2)
      | false =>
        rw [minimaxPlain_succ_min mp op gs depth hgo]
        constructor
        · exact plainMinLoop_ge op gs _ INT_MIN [0, 1, 2, 3] INT_MAX
            (le_of_lt INT_MIN_lt_INT_MAX)
            (fun v _ _ => (ih _ true (hchdim op _)).1)
        · exact le_trans (plainMinLoop_le_acc op gs _ _ _) (le_refl INT_MAX)

/-- Fail-soft specification of the maximizing alpha-beta loop: given
that every child value relates to its plain value in the Knuth-Moore
way, the loop result bounds the plain fold from the correct side
whenever it does not fail high (respectively low).  `a0` is the alpha
the enclosing node was called with; the loop-carried `a` satisfies
`a = max a0 m`. -/
theorem abMaxLoop_spec (mp : Player) (gs : GameState)
    (f : GameState → Int → Int → Int) (pf : GameState → Int)
    (hf : ∀ (v : Nat) (a' b' : Int), INT_MIN ≤ a' → b' ≤ INT_MAX → a' < b' →
      ((f (movePlayer gs mp (getDirectionFromValue v)).1 a' b' < b' →
        pf (movePlayer gs mp (getDirectionFromValue v)).1 ≤
          f (movePlayer gs mp (getDirectionFromValue v)).1 a' b') ∧
      (a' < f (movePlayer gs mp (getDirectionFromValue v)).1 a' b' →
        f (movePlayer gs mp (getDirectionFromValue v)).1 a' b' ≤
          pf (movePlayer gs mp (getDirectionFromValue v)).1))) :
    ∀ (l : List Nat) (m a0 a b : Int), a = max a0 m → INT_MIN ≤ a → b ≤ INT_MAX →
      a < b →
      m ≤ abMaxLoop mp gs f l m a b ∧
      (abMaxLoop mp gs f l m a b < b →
        plainMaxLoop mp gs pf l m ≤ abMaxLoop mp gs f l m a b) ∧
      (a < abMaxLoop mp gs f l m a b →
        abMaxLoop mp gs f l m a b ≤ plainMaxLoop mp gs pf l m) := by
  intro l
  induction l with
  | nil =>
    intro m a0 a b ha hA hB hab
    refine ⟨le_refl m, fun _ => le_refl m, fun hlt => ?_⟩
    exact absurd hlt (not_lt.mpr (ha ▸ le_max_right a0 m))
  | cons v rest ih =>
    intro m a0 a b ha hA hB hab
    by_cases hv : is_valid_move gs mp (getDirectionFromValue v) = true
    · rw [abMaxLoop_cons_valid mp gs f v rest m a b hv,
        plainMaxLoop_cons_valid mp gs pf v rest m hv]
      obtain ⟨hfc1, hfc2⟩ := hf v a b hA hB hab
      set e := f (movePlayer gs mp (getDirectionFromValue v)).1 a b with he
      set pe := pf (movePlayer gs mp (getDirectionFromValue v)).1 with hpe
      by_cases hprune : b ≤ max a e
      · rw [if_pos hprune]
        have hbe : b ≤ e := by
          rcases le_or_lt e a with h | h
          · rw [max_eq_left h] at hprune
            exact absurd hab (not_lt.mpr hprune)
          · rwa [max_eq_right (le_of_lt h)] at hprune
        have hae : a < e := lt_of_lt_of_le hab hbe
        have hpee : e ≤ pe := hfc2 hae
        refine ⟨le_max_left m e, fun hlt => ?_, fun _ => ?_⟩
        · exact absurd hlt (not_lt.mpr (le_trans hbe (le_max_right m e)))
        · exact le_trans (max_le_max (le_refl m) hpee)
            (plainMaxLoop_acc_le mp gs pf rest _)
      · rw [if_neg hprune]
        have ha'b : max a e < b := not_le.mp hprune
        have hA' : INT_MIN ≤ max a e := le_trans hA (le_max_left a e)
        obtain ⟨ihA, ihB, ihC⟩ := ih (max m e) a0 (max a e) b
          (by rw [ha, max_assoc]) hA' hB ha'b
        refine ⟨le_trans (le_max_left m e) ihA, fun hgb => ?_, fun hag => ?_⟩
        · have hee : e < b := lt_of_le_of_lt (le_max_right a e) ha'b
          have hpe_le : pe ≤ e := hfc1 hee
          exact le_trans (plainMaxLoop_mono mp gs pf rest _ _
            (max_le_max (le_refl m) hpe_le)) (ihB hgb)
        · rw [plainMaxLoop_max_comm]
          by_cases hag' : max a e < abMaxLoop mp gs f rest (max m e) (max a e) b
          · have hC := ihC hag'
            rw [plainMaxLoop_max_comm] at hC
            rcases le_max_iff.mp hC with h | h
            · exact le_trans h (le_max_left _ _)
            · exact absurd (lt_of_le_of_lt (le_trans h (le_max_right a e)) hag')
                (lt_irrefl _)
          · have hg_le : abMaxLoop mp gs f rest (max m e) (max a e) b ≤ max a e :=
              not_lt.mp hag'
            have h1 : abMaxLoop mp gs f rest (max m e) (max a e) b ≤ e := by
              rcases le_max_iff.mp hg_le with h | h
              · exact absurd hag (not_lt.mpr h)
              · exact h
            have h2 : e ≤ abMaxLoop mp gs f rest (max m e) (max a e) b :=
              le_trans (le_max_right m e) ihA
            have hge : abMaxLoop mp gs f rest (max m e) (max a e) b = e :=
              le_antisymm h1 h2
            have hae : a < e := hge ▸ hag
            rw [hge]
            exact le_trans (hfc2 hae) (le_max_right _ _)
    · rw [abMaxLoop_cons_invalid mp gs f v rest m a b hv,
        plainMaxLoop_cons_invalid mp gs pf v rest m hv]
      exact ih m a0 a b ha hA hB hab

/-- Fail-soft specification of the minimizing alpha-beta loop, dual
to `abMaxLoop_spec`: `b0` is the beta the enclosing node was called
with, the loop-carried `b` satisfies `b = min b0 m`. -/
theorem abMinLoop_spec (op : Player) (gs : GameState)
    (f : GameState → Int → Int → Int) (pf : GameState → Int)
    (hf : ∀ (v : Nat) (a' b' : Int), INT_MIN ≤ a' → b' ≤ INT_MAX → a' < b' →
      ((f (movePlayer gs op (getDirectionFromValue v)).1 a' b' < b' →
        pf (movePlayer gs op (getDirectionFromValue v)).1 ≤
          f (movePlayer gs op (getDirectionFromValue v)).1 a' b') ∧
      (a' < f (movePlayer gs op (getDirectionFromValue v)).1 a' b' →
        f (movePlayer gs op (getDirectionFromValue v)).1 a' b' ≤
          pf (movePlayer gs op (getDirectionFromValue v)).1))) :
    ∀ (l : List Nat) (m b0 a b : Int), b = min b0 m → INT_MIN ≤ a → b ≤ INT_MAX →
      a < b →
      abMinLoop op gs f l m a b ≤ m ∧
      (a < abMinLoop op gs f l m a b →
        abMinLoop op gs f l m a b ≤ plainMinLoop op gs pf l m) ∧
      (abMinLoop op gs f l m a b < b →
        plainMinLoop op gs pf l m ≤ abMinLoop op gs f l m a b) := by
  intro l
  induction l with
  | nil =>
    intro m b0 a b hb hA hB hab
    refine ⟨le_refl m, fun _ => le_refl m, fun hlt => ?_⟩
    exact absurd hlt (not_lt.mpr (hb ▸ min_le_right b0 m))
  | cons v rest ih =>
    intro m b0 a b hb hA hB hab
    by_cases hv : is_valid_move gs op (getDirectionFromValue v) = true
    · rw [abMinLoop_cons_valid op gs f v rest m a b hv,
        plainMinLoop_cons_valid op gs pf v rest m hv]
      obtain ⟨hfc1, hfc2⟩ := hf v a b hA hB hab
      set e := f (movePlayer gs op (getDirectionFromValue v)).1 a b with he
      set pe := pf (movePlayer gs op (getDirectionFromValue v)).1 with hpe
      by_cases hprune : min b e ≤ a
      · rw [if_pos hprune]
        have hea : e ≤ a := by
          rcases le_or_lt b e with h | h
          · rw [min_eq_left h] at hprune
            exact absurd hab (not_lt.mpr hprune)
          · rwa [min_eq_right (le_of_lt h)] at hprune
        have heb : e < b := lt_of_le_of_lt hea hab
        have hpee : pe ≤ e := hfc1 heb
        refine ⟨min_le_left m e, fun hlt => ?_, fun _ => ?_⟩
        · exact absurd hlt (not_lt.mpr (le_trans (min_le_right m e) hea))
        · exact le_trans (plainMinLoop_le_acc op gs pf rest _)
            (min_le_min (le_refl m) hpee)
      · rw [if_neg hprune]
        have hab' : a < min b e := not_le.mp hprune
        have hB' : min b e ≤ INT_MAX := le_trans (min_le_left b e) hB
        obtain ⟨ihA, ihB, ihC⟩ := ih (min m e) b0 a (min b e)
          (by rw [hb, min_assoc]) hA hB' hab'
        refine ⟨le_trans ihA (min_le_left m e), fun hag => ?_, fun hgb => ?_⟩
        · have hae : a < e := lt_of_lt_of_le hab' (min_le_right b e)
          have hpe_ge : e ≤ pe := hfc2 hae
          exact le_trans (ihB hag) (plainMinLoop_mono op gs pf rest _ _
            (min_le_min (le_refl m) hpe_ge))
        · rw [plainMinLoop_min_comm]
          by_cases hgb' : abMinLoop op gs f rest (min m e) a (min b e) < min b e
          · have hC := ihC hgb'
            rw [plainMinLoop_min_comm] at hC
            rcases min_le_iff.mp hC with h | h
            · exact le_trans (min_le_left _ _) h
            · exact absurd (lt_of_lt_of_le hgb'
                (le_trans (min_le_right b e) h)) (lt_irrefl _)
          · have hg_ge : min b e ≤ abMinLoop op gs f rest (min m e) a (min b e) :=
              not_lt.mp hgb'
            have hge1 : abMinLoop op gs f rest (min m e) a (min b e) ≤ e :=
              le_trans ihA (min_le_right m e)
            have hminbe : min b e = e := by
              rcases le_total b e with h | h
              · have hble : b ≤ abMinLoop op gs f rest (min m e) a (min b e) :=
                  le_trans (le_of_eq (min_eq_left h).symm) hg_ge
                exact absurd hgb (not_lt.mpr hble)
              · exact min_eq_right h
            have hge : abMinLoop op gs f rest (min m e) a (min b e) = e :=
              le_antisymm hge1 (le_trans (le_of_eq hminbe.symm) hg_ge)
            have heb2 : e < b := by
              rw [hge] at hgb
              exact hgb
            rw [hge]
            exact le_trans (min_le_right _ _) (hfc1 heb2)
    · rw [abMinLoop_cons_invalid op gs f v rest m a b hv,
        plainMinLoop_cons_invalid op gs pf v rest m hv]
      exact ih m b0 a b hb hA hB hab

/-- Knuth-Moore fail-soft property of the source's alpha-beta search
relative to the unpruned traversal: within the window the values
agree; a fail-low result upper-bounds the plain value, a fail-high
result lower-bounds it. -/
theorem minimax_ab_spec (mp op : Player) :
    ∀ (depth : Nat) (gs : GameState) (maxim : Bool) (a b : Int),
    gs.gridWidth * gs.gridHeight ≤ 2 ^ 31 - 1 →
    INT_MIN ≤ a → b ≤ INT_MAX → a < b →
    (minimax mp op gs depth maxim a b < b →
      minimaxPlain mp op gs depth maxim ≤ minimax mp op gs depth maxim a b) ∧
    (a < minimax mp op gs depth maxim a b →
      minimax mp op gs depth maxim a b ≤ minimaxPlain mp op gs depth maxim) := by
  intro depth
  induction depth with
  | zero =>
    intro gs maxim a b hdim hA hB hab
    exact ⟨fun _ => le_refl _, fun _ => le_refl _⟩
  | succ depth ih =>
    intro gs maxim a b hdim hA hB hab
    by_cases hgo : game_over mp op gs = true
    · rw [minimax_game_over mp op gs depth maxim a b hgo,
        minimaxPlain_game_over mp op gs depth maxim hgo]
      exact ⟨fun _ => le_refl _, fun _ => le_refl _⟩
    · have hchdim : ∀ (pl : Player) (d : Direction),
          ((movePlayer gs pl d).1).gridWidth * ((movePlayer gs pl d).1).gridHeight ≤
            2 ^ 31 - 1 := by
        intro pl d
        rw [(movePlayer_dims gs pl d).1, (movePlayer_dims gs pl d).2]
        exact hdim
      cases maxim with
      | true =>
        rw [minimax_succ_max mp op gs depth a b hgo,
          minimaxPlain_succ_max mp op gs depth hgo]
        have hloop := abMaxLoop_spec mp gs
          (fun g al be => minimax mp op g depth false al be)
          (fun g => minimaxPlain mp op g depth false)
          (fun v a' b' hA' hB' hab' =>
            ih (movePlayer gs mp (getDirectionFromValue v)).1 false a' b'
              (hchdim mp _) hA' hB' hab')
          [0, 1, 2, 3] INT_MIN a a b (max_eq_left hA).symm hA hB hab
        exact ⟨hloop.2.1, hloop.2.2⟩
      | false =>
        rw [minimax_succ_min mp op gs depth a b hgo,
          minimaxPlain_succ_min mp op gs depth hgo]
        have hloop := abMinLoop_spec op gs
          (fun g al be => minimax mp op g depth true al be)
          (fun g => minimaxPlain mp op g depth true)
          (fun v a' b' hA' hB' hab' =>
            ih (movePlayer gs op (getDirectionFromValue v)).1 true a' b'
              (hchdim op _) hA' hB' hab')
          [0, 1, 2, 3] INT_MAX b a b (min_eq_left hB).symm hA hB hab
        exact ⟨hloop.2.2, hloop.2.1⟩

/-- C2: on any board whose cell count fits in a machine int, the
value the source's alpha-beta search returns when invoked with the
widest window equals the value of the full unpruned minimax traversal
of the same game tree: pruning never changes the result. -/
theorem c2_pruning_equivalence (mp op : Player) (gs : GameState) (depth : Nat)
    (maxim : Bool) (hdim : gs.gridWidth * gs.gridHeight ≤ 2 ^ 31 - 1) :
    minimax mp op gs depth maxim INT_MIN INT_MAX =
      minimaxPlain mp op gs depth maxim := by
  have hb := minimaxPlain_bounds mp op depth gs maxim hdim
  have hspec := minimax_ab_spec mp op depth gs maxim INT_MIN INT_MAX hdim
    (le_refl INT_MIN) (le_refl INT_MAX) INT_MIN_lt_INT_MAX
  by_cases h1 : minimax mp op gs depth maxim INT_MIN INT_MAX < INT_MAX
  · by_cases h2 : INT_MIN < minimax mp op gs depth maxim INT_MIN INT_MAX
    · exact le_antisymm (hspec.2 h2) (hspec.1 h1)
    · exact le_antisymm
        (le_trans (not_lt.mp h2) hb.1)
        (hspec.1 h1)
  · exact le_antisymm
      (hspec.2 (lt_of_lt_of_le INT_MIN_lt_INT_MAX (not_lt.mp h1)))
      (le_trans hb.2 (not_lt.mp h1))

/-- Witness for C2: on the open 3 by 3 board at full depth the
pruned and unpruned searches agree. -/
theorem c2_witness :
    (exOpen.gridWidth * exOpen.gridHeight ≤ 2 ^ 31 - 1) ∧
      minimax exOpenSelf exOpenOpp exOpen MAX_DEPTH true INT_MIN INT_MAX =
        minimaxPlain exOpenSelf exOpenOpp exOpen MAX_DEPTH true :=
  ⟨by decide, c2_pruning_equivalence exOpenSelf exOpenOpp exOpen MAX_DEPTH true
    (by decide)⟩

end Cycles
